import Mathlib

/-!
Shallow embedding of the adaptive radix tree implementation in
`src/art.rs` (crate `adaptive_radix_tree`).

Conventions used throughout this development:
- Rust `u8` bytes and `usize` values are modelled as `Nat`; fixed-size Rust
  arrays (`[u8; 4]`, `[Node<V>; 256]`, ...) are modelled as `List`s whose
  lengths are maintained by the operations.
- Rust operations that can panic (out-of-bounds indexing, `unwrap` of `None`,
  checked integer underflow in debug builds) are modelled in the `Option`
  monad: `none` means the Rust code panics, `some r` means it returns `r`.
- In-place mutation through `&mut` references is modelled by returning the
  updated value; `find_child_mut` followed by mutation of the child becomes
  "compute the child slot, recurse on the child, write the result back".
- The recursive routines take an explicit fuel argument (structural recursion
  on the fuel) so that they are executable by kernel reduction.  Fuel is an
  embedding artifact: every wrapper passes a fuel that provably dominates the
  recursion depth of the corresponding Rust routine (the recursion of
  `recursive_insert` / `recursive_delete` / the `get_mut` loop advances the
  depth cursor at every step and reads `key[depth]` before recursing, so it is
  bounded by `key.length + 2`; the structure-directed routines `minimum`,
  `maximum`, `iter` are bounded by the tree height and take the fuel as an
  explicit wrapper argument).  Running out of fuel is reported as `none` (for
  Bool-valued traversals, as `false`), the same marker as a panic, and is
  unreachable for the fuels the theorems below instantiate.
-/

/-- MAX_PREFIX_LEN from art.rs (the spec calls it PREFIX_CAP): the number of
prefix bytes cached inline in an interior node header. -/
def MAX_PREFIX_LEN : Nat := 10

/-- Header shared by all interior node variants (`InternalNodeHeader` in
art.rs).  The Rust field `partial` (the inline prefix cache, `[u8; 10]`) is
called `partial_bytes` here. -/
structure InternalNodeHeader where
  partial_len : Nat
  num_children : Nat
  partial_bytes : List Nat
  deriving DecidableEq, Repr

/-- Leaf node (`ArtNodeLeaf<V>` in art.rs): full key plus value. -/
structure ArtNodeLeaf (V : Type) where
  value : V
  key_len : Nat
  key : List Nat
  deriving DecidableEq, Repr

mutual

/-- `Node<V>` from art.rs: Empty sentinel, leaf, or interior node.  The Rust
`Internal(Box<ArtNodeInternal<V>>)` payload (a header/inner pair) is carried
as two constructor arguments. -/
inductive Node (V : Type) where
  | Empty : Node V
  | Leaf : ArtNodeLeaf V → Node V
  | Internal : InternalNodeHeader → ArtNodeInternalInner V → Node V

/-- `ArtNodeInternalInner<V>` from art.rs: the four fan-out variants.  The
key/children arrays are lists of length 4/16/256+48/256 respectively. -/
inductive ArtNodeInternalInner (V : Type) where
  | Node4 : List Nat → List (Node V) → ArtNodeInternalInner V
  | Node16 : List Nat → List (Node V) → ArtNodeInternalInner V
  | Node48 : List Nat → List (Node V) → ArtNodeInternalInner V
  | Node256 : List (Node V) → ArtNodeInternalInner V

end

/-- `Node::is_empty` from art.rs. -/
def Node.is_empty {V : Type} : Node V → Bool
  | Node.Empty => true
  | _ => false

/-- List update that models a Rust indexed store `xs[i] = a`: Rust panics when
the index is out of bounds, which the embedding reports as `none`. -/
def set_checked {α : Type} (xs : List α) (i : Nat) (a : α) : Option (List α) :=
  if i < xs.length then some (xs.set i a) else none

/-- First index `i` with `lo ≤ i < lo + steps` such that `keys[i] = c`; models
the bounded linear scans `for i in 0..num_children { if keys[i] == c ... }`
of the Node4/Node16 variants (reads out of bounds yield 0, the value unused
slots hold in every reachable node). -/
def find_key_idx (keys : List Nat) (c : Nat) : Nat → Nat → Option Nat
  | _, 0 => none
  | lo, steps + 1 => if keys.getD lo 0 = c then some lo else find_key_idx keys c (lo + 1) steps

/-- Number of initial positions `idx < max_cmp` on which `a.getD (i+idx) 0`
and `b.getD (j+idx) 0` agree; the common "return first mismatch index, else
the bound" loop shape of `check_prefix`, `prefix_mismatch` and
`longest_common_prefix` in art.rs. -/
def match_len (a b : List Nat) (i j : Nat) : Nat → Nat
  | 0 => 0
  | max_cmp + 1 =>
    if a.getD i 0 = b.getD j 0 then match_len a b (i + 1) (j + 1) max_cmp + 1 else 0

/-- `ArtNodeLeaf::new` from art.rs: clones the key slice. -/
def ArtNodeLeaf.new {V : Type} (key : List Nat) (key_len : Nat) (value : V) : ArtNodeLeaf V :=
  { value := value, key_len := key_len, key := key }

/-- `ArtNodeLeaf::matches` from art.rs: the stored `key_len` must equal the
queried `key_len` and the full stored key must equal the full query slice. -/
def ArtNodeLeaf.matches {V : Type} (l : ArtNodeLeaf V) (key : List Nat) (key_len : Nat)
    (_depth : Nat) : Bool :=
  if l.key_len ≠ key_len then false else l.key == key

/-- `ArtNodeLeaf::longest_common_prefix` from art.rs.  The Rust
`min(self.key_len, other.key_len) - depth` is a `usize` subtraction that
panics (debug) when `depth` exceeds the minimum, hence the `Option`. -/
def ArtNodeLeaf.longest_common_prefix_len {V : Type} (l other : ArtNodeLeaf V)
    (depth : Nat) : Option Nat :=
  if min l.key_len other.key_len < depth then none
  else
    some (match_len l.key other.key depth depth (min l.key_len other.key_len - depth))

/-- `InternalNodeHeader::check_prefix` from art.rs: number of bytes of the
cached prefix matched by `key[depth..]`, bounded by
`min(min(partial_len, MAX_PREFIX_LEN), key_len - depth)`.  All call sites
reach it with `depth ≤ key_len` (otherwise the Rust subtraction would have
panicked on an earlier `key[depth]` read), so the truncated subtraction is
faithful there. -/
def InternalNodeHeader.check_prefix_len (h : InternalNodeHeader) (key : List Nat)
    (key_len depth : Nat) : Nat :=
  match_len h.partial_bytes key 0 depth (min (min h.partial_len MAX_PREFIX_LEN) (key_len - depth))

/-- `ArtNodeInternal::find_child` / `find_child_mut` from art.rs (both perform
the same lookup; mutation through the returned reference is modelled
separately via `find_child_pos` and a write-back). -/
def find_child {V : Type} (h : InternalNodeHeader) (inner : ArtNodeInternalInner V)
    (c : Nat) : Option (Node V) :=
  match inner with
  | ArtNodeInternalInner.Node4 keys children =>
    (find_key_idx keys c 0 h.num_children).map fun i => children.getD i Node.Empty
  | ArtNodeInternalInner.Node16 keys children =>
    (find_key_idx keys c 0 h.num_children).map fun i => children.getD i Node.Empty
  | ArtNodeInternalInner.Node48 keys children =>
    let idx := keys.getD c 0
    if idx ≠ 0 then some (children.getD (idx - 1) Node.Empty) else none
  | ArtNodeInternalInner.Node256 children =>
    let node := children.getD c Node.Empty
    if node.is_empty then none else some node

/-- Slot position of the child selected by `find_child_mut` in art.rs; used to
model in-place mutation of the child (`find_child_pos` then recursion then a
write-back with `set_child_at`). -/
def find_child_pos {V : Type} (h : InternalNodeHeader) (inner : ArtNodeInternalInner V)
    (c : Nat) : Option Nat :=
  match inner with
  | ArtNodeInternalInner.Node4 keys _ => find_key_idx keys c 0 h.num_children
  | ArtNodeInternalInner.Node16 keys _ => find_key_idx keys c 0 h.num_children
  | ArtNodeInternalInner.Node48 keys _ =>
    let idx := keys.getD c 0
    if idx ≠ 0 then some (idx - 1) else none
  | ArtNodeInternalInner.Node256 children =>
    if (children.getD c Node.Empty).is_empty then none else some c

/-- `ArtNodeInternal::find_child_index` from art.rs.  Note the difference from
`find_child_pos`: the Node16 scan is additionally clamped at 16, and for
Node256 the byte itself is returned unconditionally, without checking that
the slot is occupied. -/
def find_child_index {V : Type} (h : InternalNodeHeader) (inner : ArtNodeInternalInner V)
    (c : Nat) : Option Nat :=
  match inner with
  | ArtNodeInternalInner.Node4 keys _ => find_key_idx keys c 0 h.num_children
  | ArtNodeInternalInner.Node16 keys _ => find_key_idx keys c 0 (min 16 h.num_children)
  | ArtNodeInternalInner.Node48 keys _ =>
    let idx := keys.getD c 0
    if idx ≠ 0 then some (idx - 1) else none
  | ArtNodeInternalInner.Node256 _ => some c

/-- The child stored at a given slot of an interior node (reading through the
reference returned by `find_child_mut`). -/
def child_at {V : Type} (inner : ArtNodeInternalInner V) (pos : Nat) : Node V :=
  match inner with
  | ArtNodeInternalInner.Node4 _ children => children.getD pos Node.Empty
  | ArtNodeInternalInner.Node16 _ children => children.getD pos Node.Empty
  | ArtNodeInternalInner.Node48 _ children => children.getD pos Node.Empty
  | ArtNodeInternalInner.Node256 children => children.getD pos Node.Empty

/-- Write-back of a mutated child into its slot (the store through the `&mut`
reference returned by `find_child_mut`). -/
def set_child_at {V : Type} (inner : ArtNodeInternalInner V) (pos : Nat) (n : Node V) :
    ArtNodeInternalInner V :=
  match inner with
  | ArtNodeInternalInner.Node4 keys children => ArtNodeInternalInner.Node4 keys (children.set pos n)
  | ArtNodeInternalInner.Node16 keys children =>
    ArtNodeInternalInner.Node16 keys (children.set pos n)
  | ArtNodeInternalInner.Node48 keys children =>
    ArtNodeInternalInner.Node48 keys (children.set pos n)
  | ArtNodeInternalInner.Node256 children => ArtNodeInternalInner.Node256 (children.set pos n)

/-- `Node::minimum` / `ArtNodeInternal::minimum` from art.rs, with explicit
fuel for the recursion into the leftmost child.  In the Node48 arm,
`keys.iter().position(..)` with fallback 48 followed by `keys[idx] - 1` is a
forward scan for the first referenced slot; the Rust `u8` subtraction and the
`children` indexing panic only on interior nodes with no child at all, which
no reachable tree contains (modelled with truncated subtraction / default
reads). -/
def Node.minimum {V : Type} (fuel : Nat) : Node V → Option (ArtNodeLeaf V)
  | Node.Empty => none
  | Node.Leaf l => some l
  | Node.Internal _ inner =>
    match fuel with
    | 0 => none
    | f + 1 =>
      match inner with
      | ArtNodeInternalInner.Node4 _ children => Node.minimum f (children.getD 0 Node.Empty)
      | ArtNodeInternalInner.Node16 _ children => Node.minimum f (children.getD 0 Node.Empty)
      | ArtNodeInternalInner.Node48 keys children =>
        let i := (keys.findIdx? (fun key => key ≠ 0)).getD 48
        let idx := keys.getD i 0 - 1
        Node.minimum f (children.getD idx Node.Empty)
      | ArtNodeInternalInner.Node256 children =>
        match children.findIdx? (fun child => ¬ child.is_empty) with
        | none => none
        | some i => Node.minimum f (children.getD i Node.Empty)

/-- `Node::maximum` / `ArtNodeInternal::maximum` from art.rs.  For Node4 and
Node16 the rightmost slot `num_children - 1` is used.  For Node48 and Node256
the Rust code computes `keys.iter().rev().position(..)` (an offset from the
END of the array) and then uses it as a direct FORWARD index into `keys`
resp. `children`; the embedding reproduces this faithfully. -/
def Node.maximum {V : Type} (fuel : Nat) : Node V → Option (ArtNodeLeaf V)
  | Node.Empty => none
  | Node.Leaf l => some l
  | Node.Internal h inner =>
    match fuel with
    | 0 => none
    | f + 1 =>
      match inner with
      | ArtNodeInternalInner.Node4 _ children =>
        Node.maximum f (children.getD (h.num_children - 1) Node.Empty)
      | ArtNodeInternalInner.Node16 _ children =>
        Node.maximum f (children.getD (h.num_children - 1) Node.Empty)
      | ArtNodeInternalInner.Node48 keys children =>
        let i := (keys.reverse.findIdx? (fun key => key ≠ 0)).getD 0
        let idx := keys.getD i 0 - 1
        Node.maximum f (children.getD idx Node.Empty)
      | ArtNodeInternalInner.Node256 children =>
        match children.reverse.findIdx? (fun child => ¬ child.is_empty) with
        | none => none
        | some i => Node.maximum f (children.getD i Node.Empty)

/-- Byte-copy loop `for i in 0..count { dst[d+i] = src[s+i] }`; used for the
prefix-cache copies of `recursive_insert` (leaf split) and `recursive_delete`
(single-child collapse).  All of those copies are structurally in bounds in
the Rust code (both arrays have length MAX_PREFIX_LEN and the counts are
clamped), so plain reads/stores are used. -/
def copy_bytes (src : List Nat) : Nat → Nat → Nat → List Nat → List Nat
  | _, _, 0, dst => dst
  | s, d, k + 1, dst => copy_bytes src (s + 1) (d + 1) k (dst.set d (src.getD s 0))

/-- The descending shift `for i in (idx..m).rev() { keys[i+1] = keys[i];
children[i+1] = mem::replace(&mut children[i], Empty) }` used by `add_child`
for the sorted Node4/Node16 insertion.  `shift_ins lo j` performs the
iterations `i = lo + j - 1, ..., lo` (the Rust call has `lo = idx`,
`j = m - idx`). -/
def shift_ins {V : Type} (lo : Nat) : Nat → List Nat → List (Node V) → List Nat × List (Node V)
  | 0, keys, children => (keys, children)
  | j + 1, keys, children =>
    let i := lo + j
    shift_ins lo j (keys.set (i + 1) (keys.getD i 0))
      ((children.set (i + 1) (children.getD i Node.Empty)).set i Node.Empty)

/-- Copy loop `for i in .. { keys_new[i] = keys[i]; children_new[i] =
mem::replace(&mut children[i], Empty) }` of the Node4→Node16 promotion in
`add_child` and of the Node16→Node4 demotion in `recursive_delete` (both
iterate over an initial segment of the arrays, at structurally in-bounds
indices). -/
def copy_front_loop {V : Type} (keys : List Nat) (children : List (Node V)) :
    List Nat → List Nat → List (Node V) → List Nat × List (Node V)
  | [], kn, cn => (kn, cn)
  | i :: rest, kn, cn =>
    copy_front_loop keys children rest (kn.set i (keys.getD i 0))
      (cn.set i (children.getD i Node.Empty))

/-- Node16→Node48 promotion loop of `add_child`:
`for i in 0..16 { keys_new[keys[i] as usize] = (i+1) as u8;
children_new[i] = mem::replace(&mut children[i], Empty) }`.  The store into
`keys_new` is indexed by the data byte `keys[i]`, hence checked. -/
def promote16_loop {V : Type} (keys : List Nat) (children : List (Node V)) :
    List Nat → List Nat → List (Node V) → Option (List Nat × List (Node V))
  | [], kn, cn => some (kn, cn)
  | i :: rest, kn, cn => do
    let kn' ← set_checked kn (keys.getD i 0) (i + 1)
    promote16_loop keys children rest kn' (cn.set i (children.getD i Node.Empty))

/-- Node48→Node256 promotion loop of `add_child`:
`for (i, &key) in keys.iter().enumerate() { if key != 0 {
children_new[i] = mem::replace(&mut children[(key-1) as usize], Empty) } }`.
The source pool is threaded through because `mem::replace` empties the slot
it takes from (observable if two bytes reference the same slot). -/
def promote48_loop {V : Type} (keys : List Nat) :
    List Nat → List (Node V) → List (Node V) → Option (List (Node V) × List (Node V))
  | [], src, dst => some (src, dst)
  | i :: rest, src, dst =>
    if keys.getD i 0 ≠ 0 then do
      let idx := keys.getD i 0 - 1
      let taken ← src[idx]?
      let src' ← set_checked src idx Node.Empty
      promote48_loop keys rest src' (dst.set i taken)
    else promote48_loop keys rest src dst

/-- `ArtNodeInternal::add_child` from art.rs.  The fuel covers the single
re-entrant call each full variant makes after promoting itself: 2 is always
enough.  `none` marks the panics of the Rust code (the `unwrap` of the free
Node48 slot and the data-indexed stores) and fuel exhaustion. -/
def add_child {V : Type} (fuel : Nat) (h : InternalNodeHeader)
    (inner : ArtNodeInternalInner V) (c : Nat) (child : Node V) :
    Option (InternalNodeHeader × ArtNodeInternalInner V) :=
  match fuel with
  | 0 => none
  | f + 1 =>
    match inner with
    | ArtNodeInternalInner.Node4 keys children =>
      if h.num_children < 4 then
        let m := h.num_children
        let idx := (keys.findIdx? (fun key => c < key)).getD m
        let (keys', children') := shift_ins idx (m - idx) keys children
        some ({ h with num_children := h.num_children + 1 },
          ArtNodeInternalInner.Node4 (keys'.set idx c) (children'.set idx child))
      else
        let (kn, cn) := copy_front_loop keys children (List.range 4)
          (List.replicate 16 0) (List.replicate 16 Node.Empty)
        add_child f h (ArtNodeInternalInner.Node16 kn cn) c child
    | ArtNodeInternalInner.Node16 keys children =>
      if h.num_children < 16 then
        let m := h.num_children
        let idx := ((keys.take m).findIdx? (fun key => c < key)).getD m
        let (keys', children') := shift_ins idx (m - idx) keys children
        some ({ h with num_children := h.num_children + 1 },
          ArtNodeInternalInner.Node16 (keys'.set idx c) (children'.set idx child))
      else do
        let (kn, cn) ← promote16_loop keys children (List.range 16)
          (List.replicate 256 0) (List.replicate 48 Node.Empty)
        add_child f h (ArtNodeInternalInner.Node48 kn cn) c child
    | ArtNodeInternalInner.Node48 keys children =>
      if h.num_children < 48 then
        match children.findIdx? (fun ch => ch.is_empty) with
        | none => none
        | some pos => do
          let keys' ← set_checked keys c (pos + 1)
          some ({ h with num_children := h.num_children + 1 },
            ArtNodeInternalInner.Node48 keys' (children.set pos child))
      else do
        let (_, dst) ← promote48_loop keys (List.range 256) children
          (List.replicate 256 Node.Empty)
        add_child f h (ArtNodeInternalInner.Node256 dst) c child
    | ArtNodeInternalInner.Node256 children => do
      let children' ← set_checked children c child
      some ({ h with num_children := h.num_children + 1 },
        ArtNodeInternalInner.Node256 children')

/-- `ArtNodeInternal::prefix_mismatch` from art.rs: first divergence index of
`key[depth..]` against the node's full prefix; beyond the inline cache it
probes the minimum leaf.  `none` marks the Rust panics: the `usize`
subtractions `key_len - depth` / `min(l.key_len, key_len) - depth` (debug)
and the `unwrap` of `minimum()`. -/
def prefix_mismatch {V : Type} (fuel : Nat) (h : InternalNodeHeader)
    (inner : ArtNodeInternalInner V) (key : List Nat) (key_len depth : Nat) : Option Nat :=
  if key_len < depth then none
  else
    let max_cmp := min (min MAX_PREFIX_LEN h.partial_len) (key_len - depth)
    let m := match_len h.partial_bytes key 0 depth max_cmp
    if m < max_cmp then some m
    else
      let idx := max_cmp
      if h.partial_len > MAX_PREFIX_LEN then do
        let l ← Node.minimum fuel (Node.Internal h inner)
        if min l.key_len key_len < depth then none
        else
          let max_cmp2 := min l.key_len key_len - depth
          let m2 := match_len l.key key (depth + idx) (depth + idx) (max_cmp2 - idx)
          if idx + m2 < max_cmp2 then some (idx + m2) else some idx
      else some idx

/-- Prefix-cache fill of the leaf-split path of `recursive_insert`:
`for i in 0..min(MAX_PREFIX_LEN, longest) { partial_new[i] = key[depth+i] }`
over a zeroed MAX_PREFIX_LEN array. -/
def build_partial_bytes (key : List Nat) (depth longest : Nat) : List Nat :=
  copy_bytes key depth 0 (min MAX_PREFIX_LEN longest) (List.replicate MAX_PREFIX_LEN 0)

/-- `Node::recursive_insert` from art.rs.  Control-flow note: in the Rust
source the `Node::Internal` match arm returns on every path (lines 274-310),
so the `split_internal` block after the match (lines 359-453, the interior
prefix split) is unreachable; when `prefix_diff < partial_len` the code falls
through to the plain child lookup at the UNADVANCED depth (lines 301-309).
The embedding reproduces exactly the reachable control flow.  The `replace`
parameter is carried but never read, as in the source.  `none` marks a panic
(`key[depth]` reads past the end of the key in the split of a leaf whose key
is a prefix of the inserted key, and the panics of the helpers) or fuel
exhaustion; the wrappers pass fuel `key.length + 2`, which dominates the
recursion depth because every recursive call strictly increases `depth` and
is preceded by a successful `key[depth]` read. -/
def recursive_insert {V : Type} (fuel : Nat) (n : Node V) (key : List Nat) (key_len : Nat)
    (value : V) (depth : Nat) (replace : Bool) : Option (Node V × Option V) :=
  match n with
  | Node.Empty => some (Node.Leaf (ArtNodeLeaf.new key key_len value), none)
  | Node.Leaf leaf =>
    if leaf.matches key key_len depth then
      some (Node.Leaf { leaf with value := value }, some leaf.value)
    else
      let new_leaf : ArtNodeLeaf V := ArtNodeLeaf.new key key_len value
      do
        let longest ← leaf.longest_common_prefix_len new_leaf depth
        let h0 : InternalNodeHeader :=
          { partial_len := longest, num_children := 0,
            partial_bytes := build_partial_bytes key depth longest }
        let inner0 : ArtNodeInternalInner V :=
          ArtNodeInternalInner.Node4 (List.replicate 4 0) (List.replicate 4 Node.Empty)
        let ob ← leaf.key[depth + longest]?
        let (h1, i1) ← add_child 2 h0 inner0 ob (Node.Leaf leaf)
        let nb ← new_leaf.key[depth + longest]?
        let (h2, i2) ← add_child 2 h1 i1 nb (Node.Leaf new_leaf)
        some (Node.Internal h2 i2, none)
  | Node.Internal h inner =>
    match fuel with
    | 0 => none
    | f + 1 =>
      if h.partial_len ≠ 0 then do
        let prefix_diff ← prefix_mismatch f h inner key key_len depth
        if prefix_diff ≥ h.partial_len then do
          let depth1 := depth + h.partial_len
          let kb ← key[depth1]?
          match find_child_pos h inner kb with
          | some pos => do
            let (child', res) ←
              recursive_insert f (child_at inner pos) key key_len value (depth1 + 1) replace
            some (Node.Internal h (set_child_at inner pos child'), res)
          | none => do
            let (h', inner') ←
              add_child 2 h inner kb (Node.Leaf (ArtNodeLeaf.new key key_len value))
            some (Node.Internal h' inner', none)
        else do
          let kb ← key[depth]?
          match find_child_pos h inner kb with
          | some pos => do
            let (child', res) ←
              recursive_insert f (child_at inner pos) key key_len value (depth + 1) replace
            some (Node.Internal h (set_child_at inner pos child'), res)
          | none => do
            let (h', inner') ←
              add_child 2 h inner kb (Node.Leaf (ArtNodeLeaf.new key key_len value))
            some (Node.Internal h' inner', none)
      else do
        let kb ← key[depth]?
        match find_child_pos h inner kb with
        | some pos => do
          let (child', res) ←
            recursive_insert f (child_at inner pos) key key_len value (depth + 1) replace
          some (Node.Internal h (set_child_at inner pos child'), res)
        | none => do
          let (h', inner') ←
            add_child 2 h inner kb (Node.Leaf (ArtNodeLeaf.new key key_len value))
          some (Node.Internal h' inner', none)

/-- The ascending gap-closing shift of `recursive_delete` for Node4/Node16:
`for i in (pos+1)..num_children { keys[i-1] = keys[i];
children[i-1] = mem::take(&mut children[i]) }`.  `del_shift i s` performs the
iterations `i, i+1, ..., i+s-1`. -/
def del_shift {V : Type} : Nat → Nat → List Nat → List (Node V) → List Nat × List (Node V)
  | _, 0, keys, children => (keys, children)
  | i, s + 1, keys, children =>
    del_shift (i + 1) s (keys.set (i - 1) (keys.getD i 0))
      ((children.set (i - 1) (children.getD i Node.Empty)).set i Node.Empty)

/-- Node48→Node16 demotion loop of `recursive_delete`: gather the referenced
children in ascending byte order; `child` is the running output slot, the
stores into the 16-slot arrays are checked (the Rust code would go out of
bounds past 16 entries). -/
def gather48_loop {V : Type} (keys : List Nat) :
    List Nat → Nat → List (Node V) → List Nat → List (Node V) →
    Option (List (Node V) × List Nat × List (Node V))
  | [], _, src, kn, cn => some (src, kn, cn)
  | i :: rest, child, src, kn, cn =>
    if keys.getD i 0 ≠ 0 then do
      let kn' ← set_checked kn child i
      let taken ← src[keys.getD i 0 - 1]?
      let src' ← set_checked src (keys.getD i 0 - 1) Node.Empty
      let cn' ← set_checked cn child taken
      gather48_loop keys rest (child + 1) src' kn' cn'
    else gather48_loop keys rest child src kn cn

/-- Node256→Node48 demotion loop of `recursive_delete`: compact the live
children into the 48-slot pool; `pos` is the running pool slot, the store
into the pool is checked (the Rust code would go out of bounds past 48
children). -/
def pack256_loop {V : Type} (children : List (Node V)) :
    List Nat → Nat → List Nat → List (Node V) → Option (Nat × List Nat × List (Node V))
  | [], pos, kn, cn => some (pos, kn, cn)
  | i :: rest, pos, kn, cn =>
    if ¬ (children.getD i Node.Empty).is_empty then do
      let cn' ← set_checked cn pos (children.getD i Node.Empty)
      pack256_loop children rest (pos + 1) (kn.set i (pos + 1)) cn'
    else pack256_loop children rest pos kn cn

/-- Single-child collapse of `recursive_delete` (art.rs lines 504-527):
concatenate the parent prefix, the discriminating byte `keys[0]` and the
child prefix into the parent's cache, copy the result into the child's cache
and extend the child's `partial_len` by `parent.partial_len + 1`.  Takes the
already-shifted keys, the sole remaining child's header/inner, and the parent
header (already decremented to one child). -/
def collapse_child {V : Type} (h : InternalNodeHeader) (keys : List Nat)
    (ch : InternalNodeHeader) (cinner : ArtNodeInternalInner V) : Node V :=
  let pfx0 := h.partial_len
  let step1 : List Nat × Nat :=
    if pfx0 < MAX_PREFIX_LEN then (h.partial_bytes.set pfx0 (keys.getD 0 0), pfx0 + 1)
    else (h.partial_bytes, pfx0)
  let step2 : List Nat × Nat :=
    if step1.2 < MAX_PREFIX_LEN then
      let sub := min ch.partial_len (MAX_PREFIX_LEN - step1.2)
      (copy_bytes ch.partial_bytes 0 step1.2 sub step1.1, step1.2 + sub)
    else step1
  let chpb := copy_bytes step2.1 0 0 (min step2.2 MAX_PREFIX_LEN) ch.partial_bytes
  Node.Internal
    { ch with partial_bytes := chpb, partial_len := ch.partial_len + h.partial_len + 1 }
    cinner

/-- `Node::recursive_delete` from art.rs, in consume-and-return style like the
source.  `none` marks a Rust panic (the `key[depth]` read past the end of the
key, the `u8` underflow of `num_children -= 1` on an empty Node256, the
out-of-bounds stores of the demotion loops, and the `unreachable!()` when a
collapsed Node4's sole child is Empty) or fuel exhaustion; the wrappers pass
fuel `key.length + 2`, which dominates the recursion depth because every
recursive call strictly increases `depth` after a successful `key[depth]`
read. -/
def recursive_delete {V : Type} (fuel : Nat) (n : Node V) (key : List Nat)
    (key_len depth : Nat) : Option (Node V × Option V) :=
  match n with
  | Node.Empty => some (Node.Empty, none)
  | Node.Leaf leaf =>
    if leaf.matches key key_len depth then some (Node.Empty, some leaf.value)
    else some (Node.Leaf leaf, none)
  | Node.Internal h inner =>
    match fuel with
    | 0 => none
    | f + 1 =>
      if h.partial_len ≠ 0 ∧
          h.check_prefix_len key key_len depth ≠ min MAX_PREFIX_LEN h.partial_len then
        some (Node.Internal h inner, none)
      else
        let depth1 := if h.partial_len ≠ 0 then depth + h.partial_len else depth
        match key[depth1]? with
        | none => none
        | some kb =>
          match find_child_index h inner kb with
          | none => some (Node.Internal h inner, none)
          | some child_pos =>
            match inner with
            | ArtNodeInternalInner.Node4 keys children => do
              let child ← children[child_pos]?
              let (child_res, return_val) ← recursive_delete f child key key_len (depth1 + 1)
              let children1 := children.set child_pos child_res
              if child_res.is_empty then do
                let (keys2, children2) :=
                  del_shift (child_pos + 1) (h.num_children - (child_pos + 1)) keys children1
                let keys3 ← set_checked keys2 (h.num_children - 1) 0
                let h' := { h with num_children := h.num_children - 1 }
                if h'.num_children = 1 then
                  match children2.getD 0 Node.Empty with
                  | Node.Internal ch cinner => some (collapse_child h' keys3 ch cinner, return_val)
                  | Node.Leaf l => some (Node.Leaf l, return_val)
                  | Node.Empty => none
                else some (Node.Internal h' (ArtNodeInternalInner.Node4 keys3 children2), return_val)
              else some (Node.Internal h (ArtNodeInternalInner.Node4 keys children1), return_val)
            | ArtNodeInternalInner.Node16 keys children => do
              let child ← children[child_pos]?
              let (child_res, return_val) ← recursive_delete f child key key_len (depth1 + 1)
              let children1 := children.set child_pos child_res
              if child_res.is_empty then do
                let (keys2, children2) :=
                  del_shift (child_pos + 1) (h.num_children - (child_pos + 1)) keys children1
                let keys3 ← set_checked keys2 (h.num_children - 1) 0
                let h' := { h with num_children := h.num_children - 1 }
                if h'.num_children = 3 then
                  let (kn, cn) := copy_front_loop keys3 children2 (List.range h'.num_children)
                    (List.replicate 4 0) (List.replicate 4 Node.Empty)
                  some (Node.Internal h' (ArtNodeInternalInner.Node4 kn cn), return_val)
                else some (Node.Internal h' (ArtNodeInternalInner.Node16 keys3 children2), return_val)
              else some (Node.Internal h (ArtNodeInternalInner.Node16 keys children1), return_val)
            | ArtNodeInternalInner.Node48 keys children => do
              let child ← children[child_pos]?
              let (child_res, return_val) ← recursive_delete f child key key_len (depth1 + 1)
              let children1 := children.set child_pos child_res
              if child_res.is_empty then do
                let posb := keys.getD kb 0
                let keys2 ← set_checked keys kb 0
                let children2 ← set_checked children1 (posb - 1) Node.Empty
                let h' := { h with num_children := h.num_children - 1 }
                if h'.num_children = 12 then do
                  let (_, kn, cn) ← gather48_loop keys2 (List.range 256) 0 children2
                    (List.replicate 16 0) (List.replicate 16 Node.Empty)
                  some (Node.Internal h' (ArtNodeInternalInner.Node16 kn cn), return_val)
                else some (Node.Internal h' (ArtNodeInternalInner.Node48 keys2 children2), return_val)
              else some (Node.Internal h (ArtNodeInternalInner.Node48 keys children1), return_val)
            | ArtNodeInternalInner.Node256 children => do
              let child ← children[child_pos]?
              let (child_res, return_val) ← recursive_delete f child key key_len (depth1 + 1)
              let children1 := children.set child_pos child_res
              if child_res.is_empty then
                if h.num_children = 0 then none
                else
                  let h' := { h with num_children := h.num_children - 1 }
                  if h'.num_children = 37 then do
                    let (_, kn, cn) ← pack256_loop children1 (List.range 256) 0
                      (List.replicate 256 0) (List.replicate 48 Node.Empty)
                    some (Node.Internal h' (ArtNodeInternalInner.Node48 kn cn), return_val)
                  else some (Node.Internal h' (ArtNodeInternalInner.Node256 children1), return_val)
              else some (Node.Internal h (ArtNodeInternalInner.Node256 children1), return_val)

/-- Child loop of `recursive_iter` for the Node4/Node16/Node256 variants:
visit the children in slot order, skipping Empty slots, and stop at the first
child whose traversal returns true. -/
def iter_child_loop {V : Type} (g : Node V → Bool) : List (Node V) → Bool
  | [] => false
  | c :: cs =>
    if ¬ c.is_empty then
      if g c then true else iter_child_loop g cs
    else iter_child_loop g cs

/-- Byte loop of `recursive_iter` for Node48: `for i in 0..256 { let idx =
keys[i]; if idx != 0 { .. children[idx-1].recursive_iter(..) .. } }` (no
emptiness check on the referenced slot, as in the source). -/
def iter_n48_loop {V : Type} (g : Node V → Bool) (keys : List Nat)
    (children : List (Node V)) : List Nat → Bool
  | [] => false
  | i :: rest =>
    if keys.getD i 0 ≠ 0 then
      if g (children.getD (keys.getD i 0 - 1) Node.Empty) then true
      else iter_n48_loop g keys children rest
    else iter_n48_loop g keys children rest

/-- `Node::recursive_iter` / `ArtNodeInternal::recursive_iter` from art.rs.
Note that an Empty node at the point of invocation returns `true` (art.rs
line 660), while Empty children inside the variant loops are skipped. -/
def recursive_iter {V : Type} (fuel : Nat) (n : Node V) (cb : V → Bool) : Bool :=
  match n with
  | Node.Empty => true
  | Node.Leaf l => cb l.value
  | Node.Internal _ inner =>
    match fuel with
    | 0 => false
    | f + 1 =>
      match inner with
      | ArtNodeInternalInner.Node4 _ children =>
        iter_child_loop (fun c => recursive_iter f c cb) children
      | ArtNodeInternalInner.Node16 _ children =>
        iter_child_loop (fun c => recursive_iter f c cb) children
      | ArtNodeInternalInner.Node48 keys children =>
        iter_n48_loop (fun c => recursive_iter f c cb) keys children (List.range 256)
      | ArtNodeInternalInner.Node256 children =>
        iter_child_loop (fun c => recursive_iter f c cb) children

/-- Instrumented variant of `iter_child_loop` that additionally records, in
visit order, the (key, value) pairs of the leaves the traversal reaches; the
Bool component is computed by the identical control flow. -/
def visit_child_loop {V : Type} (g : Node V → List (List Nat × V) × Bool) :
    List (Node V) → List (List Nat × V) × Bool
  | [] => ([], false)
  | c :: cs =>
    if ¬ c.is_empty then
      let r := g c
      if r.2 then (r.1, true)
      else
        let r2 := visit_child_loop g cs
        (r.1 ++ r2.1, r2.2)
    else visit_child_loop g cs

/-- Instrumented variant of `iter_n48_loop` (same control flow, recording the
visited leaves). -/
def visit_n48_loop {V : Type} (g : Node V → List (List Nat × V) × Bool) (keys : List Nat)
    (children : List (Node V)) : List Nat → List (List Nat × V) × Bool
  | [] => ([], false)
  | i :: rest =>
    if keys.getD i 0 ≠ 0 then
      let r := g (children.getD (keys.getD i 0 - 1) Node.Empty)
      if r.2 then (r.1, true)
      else
        let r2 := visit_n48_loop g keys children rest
        (r.1 ++ r2.1, r2.2)
    else visit_n48_loop g keys children rest

/-- Instrumented variant of `recursive_iter` with identical control flow that
also returns the (key, value) pairs of the leaves whose values the callback
is invoked on, in invocation order (`iter_visits_bool_eq_recursive_iter`
below proves the Bool components coincide). -/
def iter_visits {V : Type} (fuel : Nat) (n : Node V) (cb : V → Bool) :
    List (List Nat × V) × Bool :=
  match n with
  | Node.Empty => ([], true)
  | Node.Leaf l => ([(l.key, l.value)], cb l.value)
  | Node.Internal _ inner =>
    match fuel with
    | 0 => ([], false)
    | f + 1 =>
      match inner with
      | ArtNodeInternalInner.Node4 _ children =>
        visit_child_loop (fun c => iter_visits f c cb) children
      | ArtNodeInternalInner.Node16 _ children =>
        visit_child_loop (fun c => iter_visits f c cb) children
      | ArtNodeInternalInner.Node48 keys children =>
        visit_n48_loop (fun c => iter_visits f c cb) keys children (List.range 256)
      | ArtNodeInternalInner.Node256 children =>
        visit_child_loop (fun c => iter_visits f c cb) children

/-- Number of Leaf nodes stored in a subtree (every child of every reachable
interior node sits in its child array, so this is the number of leaves
reachable from `n`). -/
def leaf_count {V : Type} (fuel : Nat) (n : Node V) : Nat :=
  match n with
  | Node.Empty => 0
  | Node.Leaf _ => 1
  | Node.Internal _ inner =>
    match fuel with
    | 0 => 0
    | f + 1 =>
      match inner with
      | ArtNodeInternalInner.Node4 _ children => (children.map (fun c => leaf_count f c)).sum
      | ArtNodeInternalInner.Node16 _ children => (children.map (fun c => leaf_count f c)).sum
      | ArtNodeInternalInner.Node48 _ children => (children.map (fun c => leaf_count f c)).sum
      | ArtNodeInternalInner.Node256 children => (children.map (fun c => leaf_count f c)).sum

/-- Header of the root of a subtree, when it is an interior node (projection
used to observe node shapes in the theorems). -/
def Node.header_of {V : Type} : Node V → Option InternalNodeHeader
  | Node.Internal h _ => some h
  | _ => none

/-- `ArtTree<V>` from art.rs. -/
structure ArtTree (V : Type) where
  root : Node V
  size : Nat

/-- `ArtTree::new` from art.rs. -/
def ArtTree.new {V : Type} : ArtTree V := { root := Node.Empty, size := 0 }

/-- Loop body of `ArtTree::get_mut` from art.rs (the Rust `loop` with a
mutable `n_iter`/`depth`, written recursively). -/
def get_go {V : Type} (fuel : Nat) (n : Node V) (key : List Nat) (key_len depth : Nat) :
    Option (Option V) :=
  match n with
  | Node.Empty => some none
  | Node.Leaf leaf => some (if leaf.matches key key_len depth then some leaf.value else none)
  | Node.Internal h inner =>
    match fuel with
    | 0 => none
    | f + 1 =>
      if h.partial_len ≠ 0 ∧
          h.check_prefix_len key key_len depth ≠ min MAX_PREFIX_LEN h.partial_len then
        some none
      else
        let depth1 := if h.partial_len ≠ 0 then depth + h.partial_len else depth
        match key[depth1]? with
        | none => none
        | some kb =>
          match find_child h inner kb with
          | none => some none
          | some child => get_go f child key key_len (depth1 + 1)

/-- `ArtTree::get_mut` from art.rs: `some (some v)` means a reference to `v`
is returned, `some none` means not-found, `none` means the Rust code
panics. -/
def ArtTree.get_mut {V : Type} (t : ArtTree V) (key : List Nat) (key_len : Nat) :
    Option (Option V) :=
  get_go (key.length + 2) t.root key key_len 0

/-- `ArtTree::insert` from art.rs: runs `recursive_insert` at the root with
`replace = true` and increments `size` exactly when the result is `None`.
The returned pair is (tree after the call, return value of insert). -/
def ArtTree.insert {V : Type} (t : ArtTree V) (key : List Nat) (key_len : Nat) (value : V) :
    Option (ArtTree V × Option V) :=
  (recursive_insert (key.length + 2) t.root key key_len value 0 true).map fun r =>
    ({ root := r.1, size := if r.2.isNone then t.size + 1 else t.size }, r.2)

/-- `ArtTree::delete` from art.rs: runs `recursive_delete` at the root,
installs the returned subtree and decrements `size` exactly when a value was
removed. -/
def ArtTree.delete {V : Type} (t : ArtTree V) (key : List Nat) (key_len : Nat) :
    Option (ArtTree V × Option V) :=
  (recursive_delete (key.length + 2) t.root key key_len 0).map fun r =>
    ({ root := r.1, size := if r.2.isSome then t.size - 1 else t.size }, r.2)

/-- `ArtTree::minimum` from art.rs (the key/value references of the minimum
leaf).  The explicit `fuel` is an embedding artifact (see the header comment):
the Rust recursion is bounded by the tree height, the result is the faithful
one for any fuel at least the height, and every theorem below instantiates a
fuel that dominates the height of the tree involved. -/
def ArtTree.minimum {V : Type} (fuel : Nat) (t : ArtTree V) : Option (List Nat × V) :=
  (Node.minimum fuel t.root).map fun l => (l.key, l.value)

/-- `ArtTree::maximum` from art.rs (fuel as in `ArtTree.minimum`). -/
def ArtTree.maximum {V : Type} (fuel : Nat) (t : ArtTree V) : Option (List Nat × V) :=
  (Node.maximum fuel t.root).map fun l => (l.key, l.value)

/-- `ArtTree::pop_first` from art.rs: clone the minimum key, delete it, and
`unwrap` the deleted value (`none` marks the panic of that unwrap or of the
delete; fuel as in `ArtTree.minimum`). -/
def ArtTree.pop_first {V : Type} (fuel : Nat) (t : ArtTree V) :
    Option (ArtTree V × Option (List Nat × V)) :=
  match t.minimum fuel with
  | none => some (t, none)
  | some (k, _) => do
    let (t', res) ← t.delete k k.length
    match res with
    | none => none
    | some v => some (t', some (k, v))

/-- `ArtTree::pop_last` from art.rs. -/
def ArtTree.pop_last {V : Type} (fuel : Nat) (t : ArtTree V) :
    Option (ArtTree V × Option (List Nat × V)) :=
  match t.maximum fuel with
  | none => some (t, none)
  | some (k, _) => do
    let (t', res) ← t.delete k k.length
    match res with
    | none => none
    | some v => some (t', some (k, v))

/-- `ArtTree::iter` from art.rs (fuel as in `ArtTree.minimum`). -/
def ArtTree.iter {V : Type} (fuel : Nat) (t : ArtTree V) (cb : V → Bool) : Bool :=
  recursive_iter fuel t.root cb

/-- Visit trace of `ArtTree.iter` (instrumented variant, same control flow). -/
def ArtTree.iter_trace {V : Type} (fuel : Nat) (t : ArtTree V) (cb : V → Bool) :
    List (List Nat × V) × Bool :=
  iter_visits fuel t.root cb

/-- Insert a (key, value) pair into a tree-so-far, keeping only the tree
(`none` propagates panics of earlier operations). -/
def ins_kv (t : Option (ArtTree Nat)) (k : List Nat) (v : Nat) : Option (ArtTree Nat) :=
  t.bind fun tr => (tr.insert k k.length v).map Prod.fst

/-- Insert the single-byte keys `[b]` (value `b`) for each `b` in the list. -/
def ins_bytes (t : Option (ArtTree Nat)) : List Nat → Option (ArtTree Nat)
  | [] => t
  | b :: bs => ins_bytes (ins_kv t [b] b) bs

/-- Delete the single-byte keys `[b]` for each `b` in the list, keeping the
tree. -/
def del_bytes (t : Option (ArtTree Nat)) : List Nat → Option (ArtTree Nat)
  | [] => t
  | b :: bs => del_bytes (t.bind fun tr => (tr.delete [b] 1).map Prod.fst) bs

/-- The tree obtained by inserting keys [5,6,7,1] → 17 and [5,6,7,2] → 18
into a new tree: a Node4 root with prefix [5,6,7] (partial_len 3) and the two
leaves under the discriminating bytes 1 and 2. -/
def tree2a : Option (ArtTree Nat) :=
  ins_kv (ins_kv (some ArtTree.new) [5, 6, 7, 1] 17) [5, 6, 7, 2] 18

/-- tree2a, then insert [9,6,7,1] → 19.  The key diverges from the root
prefix [5,6,7] at index 0, which should trigger the interior prefix split;
the split block of `recursive_insert` is unreachable, so the leaf is instead
attached directly under byte 9 of the prefixed root. -/
def tree3a : Option (ArtTree Nat) := ins_kv tree2a [9, 6, 7, 1] 19

/-- The tree obtained by inserting [5,6,7,1] → 17, [5,6,7,2] → 18 and then
[1,9,9,9] → 19 into a new tree: the third key diverges inside the root prefix
but its first byte collides with the child byte 1, so `recursive_insert`
descends into the leaf [5,6,7,1] and splits it at depth 1. -/
def tree3b : Option (ArtTree Nat) := ins_kv tree2a [1, 9, 9, 9] 19

/-- The tree obtained by inserting the 49 single-byte keys [0], [1], ..., [48]
(values 0..48) into a new tree; the 49th insert promotes the root to a
Node256. -/
def build49 : Option (ArtTree Nat) := ins_bytes (some ArtTree.new) (List.range 49)

/-- build49, then delete the absent key [200] (goes through the Node256 slot
200, which is Empty, and spuriously decrements `num_children` to 48). -/
def c3_stage1 : Option (ArtTree Nat) :=
  build49.bind fun t => (t.delete [200] 1).map Prod.fst

/-- c3_stage1, then delete the present keys [0] .. [10]; at [10] the stored
`num_children` reaches 37 and the root demotes to a Node48 that actually
holds 38 children. -/
def c3_stage2 : Option (ArtTree Nat) := del_bytes c3_stage1 (List.range 11)

/-- c3_stage2, then delete the present keys [11] .. [35]; at [35] the stored
`num_children` reaches 12 and the root demotes to a Node16 that actually
holds 13 children (slots 0..12 for bytes 36..48). -/
def c3_stage3 : Option (ArtTree Nat) := del_bytes c3_stage2 (List.range' 11 25)

/-- c3_stage3, then insert the key [20] → 100: the sorted insertion into the
Node16 shifts slots 0..12 up by one, overwriting the live child of byte 48 in
slot 12, so one leaf is silently lost while `size` is incremented. -/
def c3_final : Option (ArtTree Nat) :=
  c3_stage3.bind fun t => (t.insert [20] 1 100).map Prod.fst


/-- Strict lexicographic order on keys (unsigned byte comparison), the key
order used by the specification. -/
def lex_lt : List Nat → List Nat → Bool
  | _, [] => false
  | [], _ :: _ => true
  | a :: as, b :: bs => if a < b then true else if b < a then false else lex_lt as bs

/-- The Bool component of the instrumented child loop coincides with the
plain iteration loop whenever the per-child functions agree on their Bool
components. -/
theorem visit_child_loop_bool {V : Type} (g : Node V → List (List Nat × V) × Bool)
    (g' : Node V → Bool) (hg : ∀ c, (g c).2 = g' c) :
    ∀ cs : List (Node V), (visit_child_loop g cs).2 = iter_child_loop g' cs := by
  intro cs
  induction cs with
  | nil => rfl
  | cons c cs ih =>
    simp only [visit_child_loop, iter_child_loop]
    by_cases hc : c.is_empty
    · simp [hc, ih]
    · simp only [hc, Bool.not_false, if_true, ← hg c]
      cases hgc : (g c).2 <;> simp [hgc, ih]

/-- The Bool component of the instrumented Node48 byte loop coincides with
the plain one. -/
theorem visit_n48_loop_bool {V : Type} (g : Node V → List (List Nat × V) × Bool)
    (g' : Node V → Bool) (hg : ∀ c, (g c).2 = g' c) (keys : List Nat)
    (children : List (Node V)) :
    ∀ idxs : List Nat,
      (visit_n48_loop g keys children idxs).2 = iter_n48_loop g' keys children idxs := by
  intro idxs
  induction idxs with
  | nil => rfl
  | cons i rest ih =>
    cases hk : keys[i]?.getD 0 with
    | zero => simp [visit_n48_loop, iter_n48_loop, List.getD, hk, ih]
    | succ m =>
      cases hgc : (g (children[m]?.getD Node.Empty)).2 <;>
        simp [visit_n48_loop, iter_n48_loop, List.getD, hk, hgc, ih, ← hg]

/-- The instrumented traversal `iter_visits` is faithful to
`recursive_iter`: its Bool component is exactly the value the source
iteration returns (for every fuel), so its list component is a legitimate
record of the visit order of `recursive_iter`. -/
theorem iter_visits_bool_eq_recursive_iter {V : Type} :
    ∀ (fuel : Nat) (n : Node V) (cb : V → Bool),
      (iter_visits fuel n cb).2 = recursive_iter fuel n cb := by
  intro fuel
  induction fuel with
  | zero =>
    intro n cb
    cases n with
    | Empty => rfl
    | Leaf l => rfl
    | Internal h inner => rfl
  | succ f ih =>
    intro n cb
    cases n with
    | Empty => rfl
    | Leaf l => rfl
    | Internal h inner =>
      cases inner with
      | Node4 keys children =>
        exact visit_child_loop_bool _ _ (fun c => ih c cb) children
      | Node16 keys children =>
        exact visit_child_loop_bool _ _ (fun c => ih c cb) children
      | Node48 keys children =>
        exact visit_n48_loop_bool _ _ (fun c => ih c cb) keys children (List.range 256)
      | Node256 children =>
        exact visit_child_loop_bool _ _ (fun c => ih c cb) children

/-- C1: the claim says that after `insert(k, v)` a subsequent `get_mut(k)`
returns `v` until `delete(k)`.  The code violates it: starting from a new
tree, insert [5,6,7,1] → 17 and [5,6,7,2] → 18 (building a root with prefix
[5,6,7]); then `insert([9,6,7,1], 19)` completes and returns None (a fresh
insertion), yet the immediately following `get_mut([9,6,7,1])` returns None
(not found) because the unreachable interior-split branch left the new leaf
under byte 9 of a node whose prefix [5,6,7] the key does not match. -/
theorem c1_get_after_insert_code_bug :
    (tree2a.bind fun t => t.insert [9, 6, 7, 1] 4 19).map
        (fun r => (r.2, r.1.get_mut [9, 6, 7, 1] 4))
      = some (none, some none) := by decide

/-- C2: the claim says `insert(k, v1); insert(k, v2)` returns `Some v1`,
leaves the size unchanged, and afterwards `get_mut(k)` returns `v2`.  On the
tree of `tree3a` (where k = [9,6,7,1] was inserted with v1 = 19 as the third
key), re-inserting k with v2 = 20 indeed returns Some 19 and keeps size = 3,
but the final `get_mut(k)` returns None rather than 20: the replacement
happened on a leaf that lookups cannot reach. -/
theorem c2_idempotent_replace_code_bug :
    (tree3a.bind fun t => (t.insert [9, 6, 7, 1] 4 20).map
        (fun r => (r.2, r.1.size, t.size, r.1.get_mut [9, 6, 7, 1] 4)))
      = some (some 19, 3, 3, some none) := by decide

set_option maxRecDepth 100000 in
/-- C3: the claim says that after every sequence of insert/delete/pop
operations starting from a new tree, `size` equals the number of reachable
Leaf nodes.  The 87-operation sequence of `c3_final` (49 inserts of the
single-byte keys [0]..[48]; a delete of the absent key [200] that spuriously
decrements the Node256 `num_children`; 36 deletes of [0]..[35] driving two
demotions with an off-by-one child count; one insert of [20] whose sorted
Node16 insertion shifts the extra child out of its slot) completes without
panicking and ends with `size = 14` but only 13 reachable leaves. -/
theorem c3_size_accuracy_code_bug :
    c3_final.map (fun t => (t.size, leaf_count 5 t.root)) = some (14, 13) := by decide

set_option maxRecDepth 100000 in
/-- C4: the claim says `minimum()` / `maximum()` return the pairs with the
lexicographically smallest / largest keys for every interior variant
including N48 and N256.  On the Node256 tree of `build49` (the 49 single-byte
keys [0]..[48], size 49), `minimum()` correctly returns ([0], 0) but
`maximum()` returns None: the code uses `rev().position(..)` (an offset from
the end, here 255 - 48 = 207) as a forward index and lands on an Empty
slot. -/
theorem c4_minmax_code_bug :
    build49.map (fun t => (t.size, t.minimum 50, t.maximum 50))
      = some (49, some ([0], 0), none) := by decide

set_option maxRecDepth 100000 in
/-- C5: the claim says `delete(k)` for an absent key leaves the tree
byte-identical.  On the Node256 tree of `build49`, deleting the absent key
[200] returns None as expected but decrements the root's `num_children` from
49 to 48 (Node256's `find_child_index` returns the byte unconditionally, so
the Empty slot is "deleted"): the tree is not byte-identical afterwards. -/
theorem c5_delete_absent_code_bug :
    (build49.bind fun t => (t.delete [200] 1).map
        (fun r => (r.2, r.1.root.header_of, t.root.header_of)))
      = some (none,
          some { partial_len := 0, num_children := 48,
                 partial_bytes := [0, 0, 0, 0, 0, 0, 0, 0, 0, 0] },
          some { partial_len := 0, num_children := 49,
                 partial_bytes := [0, 0, 0, 0, 0, 0, 0, 0, 0, 0] }) := by decide

/-- C6: the claim says `iter` invokes the callback on stored values in
strictly ascending key order.  On the reachable tree of `tree3b` (inserts
[5,6,7,1] → 17, [5,6,7,2] → 18, [1,9,9,9] → 19), the traversal visits the
keys in the order [5,6,7,1], [1,9,9,9], [5,6,7,2] — the second visited key is
lexicographically smaller than the first — and returns false
(`iter_visits_bool_eq_recursive_iter` certifies the trace reflects
`recursive_iter`).  The key [1,9,9,9] was stored under the leaf-split of the
child at byte 1 because the interior prefix-split branch is unreachable. -/
theorem c6_iter_order_code_bug :
    (tree3b.map fun t => ((t.iter_trace 5 fun _ => false).1.map Prod.fst,
        t.iter 5 fun _ => false))
      = some ([[5, 6, 7, 1], [1, 9, 9, 9], [5, 6, 7, 2]], false)
    ∧ lex_lt [1, 9, 9, 9] [5, 6, 7, 1] = true := by
  constructor
  · decide
  · decide

/-- C8: the claim says an insert whose key diverges from an interior node's
prefix at index `diff < partial_len` replaces the node by a new Node4 with
`partial_len = diff`, the trimmed old node hanging under byte
`prefix[diff]`.  In the code the split block of `recursive_insert` is
unreachable (the Internal match arm returns on every path before it), so
after `tree2a` (root prefix [5,6,7], two children) the insert of [9,6,7,1]
(diff = 0) leaves the root header unchanged except for a third child:
`partial_len` is still 3, not the 0 the claim requires, and no new Node4 is
installed. -/
theorem c8_prefix_split_code_bug :
    tree3a.map (fun t => t.root.header_of)
      = some (some { partial_len := 3, num_children := 3,
                     partial_bytes := [5, 6, 7, 0, 0, 0, 0, 0, 0, 0] }) := by decide

/-- C10: on the empty tree, `get_mut`, `delete`, `minimum`, `maximum`,
`pop_first` and `pop_last` all return none without panicking and leave the
tree empty, while `iter(callback)` returns true without ever invoking the
callback (its visit trace is empty). -/
theorem c10_empty_tree_ops :
    (∀ (V : Type) (key : List Nat) (key_len : Nat),
        (ArtTree.new : ArtTree V).get_mut key key_len = some none) ∧
    (∀ (V : Type) (key : List Nat) (key_len : Nat),
        (ArtTree.new : ArtTree V).delete key key_len = some (ArtTree.new, none)) ∧
    (∀ (V : Type) (fuel : Nat), (ArtTree.new : ArtTree V).minimum fuel = none) ∧
    (∀ (V : Type) (fuel : Nat), (ArtTree.new : ArtTree V).maximum fuel = none) ∧
    (∀ (V : Type) (fuel : Nat),
        (ArtTree.new : ArtTree V).pop_first fuel = some (ArtTree.new, none)) ∧
    (∀ (V : Type) (fuel : Nat),
        (ArtTree.new : ArtTree V).pop_last fuel = some (ArtTree.new, none)) ∧
    (∀ (V : Type) (fuel : Nat) (cb : V → Bool),
        (ArtTree.new : ArtTree V).iter fuel cb = true ∧
        (ArtTree.new : ArtTree V).iter_trace fuel cb = ([], true)) := by
  refine ⟨fun V key key_len => rfl, fun V key key_len => rfl, ?_, ?_, ?_, ?_, ?_⟩
  · intro V fuel; cases fuel <;> rfl
  · intro V fuel; cases fuel <;> rfl
  · intro V fuel; cases fuel <;> rfl
  · intro V fuel; cases fuel <;> rfl
  · intro V fuel cb; cases fuel <;> exact ⟨rfl, rfl⟩

/-- getD after set at the same (in-bounds) position. -/
theorem getD_set_eq {α : Type} (xs : List α) (i : Nat) (a d : α) (h : i < xs.length) :
    (xs.set i a).getD i d = a := by
  simp [List.getD, List.getElem?_set_self', List.getElem?_eq_getElem h]

/-- getD after set at a different position. -/
theorem getD_set_ne {α : Type} (xs : List α) (i j : Nat) (a d : α) (h : i ≠ j) :
    (xs.set i a).getD j d = xs.getD j d := by
  simp [List.getD, List.getElem?_set_ne h]

/-- match_len never exceeds its bound. -/
theorem match_len_le (a b : List Nat) : ∀ (bound s t : Nat), match_len a b s t bound ≤ bound := by
  intro bound
  induction bound with
  | zero => intro s t; exact Nat.le_refl 0
  | succ m ih =>
    intro s t
    rw [match_len]
    split
    · exact Nat.succ_le_succ (ih (s + 1) (t + 1))
    · exact Nat.zero_le _

/-- Positions below match_len agree. -/
theorem match_len_agree (a b : List Nat) :
    ∀ (bound s t j : Nat), j < match_len a b s t bound →
      a.getD (s + j) 0 = b.getD (t + j) 0 := by
  intro bound
  induction bound with
  | zero => intro s t j hj; exact absurd hj (Nat.not_lt_zero j)
  | succ m ih =>
    intro s t j hj
    rw [match_len] at hj
    split at hj
    case isTrue hst =>
      cases j with
      | zero => simpa [List.getD] using hst
      | succ j' =>
        have h2 := ih (s + 1) (t + 1) j' (Nat.lt_of_succ_lt_succ hj)
        rw [show s + (j' + 1) = s + 1 + j' from by omega,
          show t + (j' + 1) = t + 1 + j' from by omega]
        exact h2
    case isFalse hst => exact absurd hj (Nat.not_lt_zero j)

/-- If match_len stops before the bound, the next position disagrees. -/
theorem match_len_mismatch (a b : List Nat) :
    ∀ (bound s t : Nat), match_len a b s t bound < bound →
      a.getD (s + match_len a b s t bound) 0 ≠ b.getD (t + match_len a b s t bound) 0 := by
  intro bound
  induction bound with
  | zero => intro s t h; exact absurd h (Nat.not_lt_zero _)
  | succ m ih =>
    intro s t h
    rw [match_len] at h ⊢
    split at h
    case isTrue hst =>
      rw [if_pos (by simpa [List.getD] using hst)]
      have hm := ih (s + 1) (t + 1) (Nat.lt_of_succ_lt_succ h)
      rw [show s + (match_len a b (s + 1) (t + 1) m + 1) =
            s + 1 + match_len a b (s + 1) (t + 1) m from by omega,
        show t + (match_len a b (s + 1) (t + 1) m + 1) =
            t + 1 + match_len a b (s + 1) (t + 1) m from by omega]
      exact hm
    case isFalse hst =>
      rw [if_neg (by simpa [List.getD] using hst)]
      simpa [List.getD] using hst

/-- If all positions below the bound agree, match_len reaches the bound. -/
theorem match_len_eq_of_agree (a b : List Nat) :
    ∀ (bound s t : Nat), (∀ j, j < bound → a.getD (s + j) 0 = b.getD (t + j) 0) →
      match_len a b s t bound = bound := by
  intro bound
  induction bound with
  | zero => intro s t _; rfl
  | succ m ih =>
    intro s t hag
    have h0 : a.getD s 0 = b.getD t 0 := by simpa using hag 0 (Nat.succ_pos m)
    have htail : match_len a b (s + 1) (t + 1) m = m := by
      refine ih (s + 1) (t + 1) fun j hj => ?_
      have := hag (j + 1) (Nat.succ_lt_succ hj)
      rw [show s + 1 + j = s + (j + 1) from by omega,
        show t + 1 + j = t + (j + 1) from by omega]
      exact this
    rw [match_len, if_pos h0, htail]

/-- copy_bytes preserves the target length. -/
theorem copy_bytes_length (src : List Nat) :
    ∀ (count s d : Nat) (dst : List Nat), (copy_bytes src s d count dst).length = dst.length := by
  intro count
  induction count with
  | zero => intro s d dst; rfl
  | succ k ih => intro s d dst; rw [copy_bytes, ih]; exact List.length_set ..

/-- copy_bytes leaves positions below the copy window unchanged. -/
theorem copy_bytes_getD_below (src : List Nat) :
    ∀ (count s d : Nat) (dst : List Nat) (j : Nat), j < d →
      (copy_bytes src s d count dst).getD j 0 = dst.getD j 0 := by
  intro count
  induction count with
  | zero => intro s d dst j _; rfl
  | succ k ih =>
    intro s d dst j hj
    rw [copy_bytes, ih (s + 1) (d + 1) _ j (Nat.lt_succ_of_lt hj)]
    exact getD_set_ne dst d j _ 0 (Nat.ne_of_gt hj)

/-- Inside the copy window (and inside the target), copy_bytes installs the
source bytes. -/
theorem copy_bytes_getD_in (src : List Nat) :
    ∀ (count s d : Nat) (dst : List Nat) (j : Nat), d ≤ j → j < d + count → j < dst.length →
      (copy_bytes src s d count dst).getD j 0 = src.getD (s + (j - d)) 0 := by
  intro count
  induction count with
  | zero => intro s d dst j h1 h2 _; omega
  | succ k ih =>
    intro s d dst j h1 h2 hlen
    rw [copy_bytes]
    rcases Nat.eq_or_lt_of_le h1 with heq | hlt
    · subst heq
      rw [copy_bytes_getD_below src k (s + 1) (d + 1) _ d (Nat.lt_succ_self d),
        getD_set_eq dst d _ 0 hlen]
      simp
    · rw [ih (s + 1) (d + 1) _ j hlt (by omega) (by simpa using hlen)]
      congr 1
      omega

/-- getD of the prefix cache built by the leaf split: positions below
`min MAX_PREFIX_LEN longest` hold the key bytes from `depth` on. -/
theorem build_partial_bytes_getD (key : List Nat) (depth longest j : Nat)
    (hj : j < min MAX_PREFIX_LEN longest) :
    (build_partial_bytes key depth longest).getD j 0 = key.getD (depth + j) 0 := by
  have h10 : j < (List.replicate MAX_PREFIX_LEN (0 : Nat)).length := by
    simp only [List.length_replicate]
    exact Nat.lt_of_lt_of_le hj (Nat.min_le_left _ _)
  have := copy_bytes_getD_in key (min MAX_PREFIX_LEN longest) depth 0
    (List.replicate MAX_PREFIX_LEN 0) j (Nat.zero_le j) (by omega) h10
  simpa [build_partial_bytes] using this

/-- add_child on a fresh (zero-children) Node4 places the child in slot 0. -/
theorem add_child_empty4 {V : Type} (h : InternalNodeHeader) (hn : h.num_children = 0)
    (b : Nat) (ch : Node V) :
    add_child 2 h
        (ArtNodeInternalInner.Node4 (List.replicate 4 0) (List.replicate 4 Node.Empty)) b ch
      = some ({ h with num_children := 1 },
          ArtNodeInternalInner.Node4 [b, 0, 0, 0] [ch, Node.Empty, Node.Empty, Node.Empty]) := by
  have hfind : (([0, 0, 0, 0] : List Nat).findIdx? (fun k => b < k)) = none := by
    simp [List.findIdx?_cons]
  simp [add_child, hn, shift_ins, List.replicate, hfind]

/-- add_child of a fresh byte on a one-child Node4: sorted insertion before or
after the existing entry. -/
theorem add_child_one4 {V : Type} (h : InternalNodeHeader) (hn : h.num_children = 1)
    (b1 b2 : Nat) (c1 c2 : Node V) (hlt : b2 < b1) :
    add_child 2 h (ArtNodeInternalInner.Node4 [b1, 0, 0, 0]
        [c1, Node.Empty, Node.Empty, Node.Empty]) b2 c2
      = some ({ h with num_children := 2 },
          ArtNodeInternalInner.Node4 [b2, b1, 0, 0] [c2, c1, Node.Empty, Node.Empty]) := by
  have hfind : (([b1, 0, 0, 0] : List Nat).findIdx? (fun k => b2 < k)) = some 0 := by
    simp [List.findIdx?_cons, hlt]
  simp [add_child, hn, hfind, shift_ins, List.getD]

/-- add_child of a fresh larger byte on a one-child Node4 appends in slot 1. -/
theorem add_child_one4_hi {V : Type} (h : InternalNodeHeader) (hn : h.num_children = 1)
    (b1 b2 : Nat) (c1 c2 : Node V) (hgt : b1 < b2) :
    add_child 2 h (ArtNodeInternalInner.Node4 [b1, 0, 0, 0]
        [c1, Node.Empty, Node.Empty, Node.Empty]) b2 c2
      = some ({ h with num_children := 2 },
          ArtNodeInternalInner.Node4 [b1, b2, 0, 0] [c1, c2, Node.Empty, Node.Empty]) := by
  have hfind : (([b1, 0, 0, 0] : List Nat).findIdx? (fun k => b2 < k)) = none := by
    simp [List.findIdx?_cons, Nat.not_lt_of_gt hgt, Nat.le_of_lt hgt]
  simp [add_child, hn, hfind, shift_ins]

/-- One step of the get_mut loop through an interior node whose cached prefix
check passes. -/
theorem get_go_internal_step {V : Type} (f : Nat) (h : InternalNodeHeader)
    (inner : ArtNodeInternalInner V) (key : List Nat) (key_len depth : Nat)
    (hck : ¬(h.partial_len ≠ 0 ∧
      h.check_prefix_len key key_len depth ≠ min MAX_PREFIX_LEN h.partial_len)) :
    get_go (f + 1) (Node.Internal h inner) key key_len depth
      = (match key[if h.partial_len ≠ 0 then depth + h.partial_len else depth]? with
         | none => none
         | some kb =>
           match find_child h inner kb with
           | none => some none
           | some child =>
             get_go f child key key_len
               ((if h.partial_len ≠ 0 then depth + h.partial_len else depth) + 1)) := by
  rw [get_go]
  rw [if_neg hck]

/-- C7, counterexample: the claim as stated includes key pairs where one key
is a proper prefix of the other.  Inserting [1] and then [1,2] into a new
tree panics: the leaf split computes longest_common_prefix = 1 and then reads
`old_leaf.key[depth + longest_prefix]` = key index 1 of the one-byte stored
key, out of bounds. -/
theorem c7_prefix_pair_counterexample :
    ((ArtTree.new : ArtTree Nat).insert [1] 1 17).bind (fun r => r.1.insert [1, 2] 2 18)
      = none := rfl

/-- C7, amended: for every pair of keys that differ at some index below both
lengths (neither key a prefix of the other), inserting both into a new tree
completes without panicking (both inserts return a tree and report a fresh
insertion) and afterwards both keys are retrievable with their values. -/
theorem c7_insert_two_keys_amended {V : Type} (k1 k2 : List Nat) (v1 v2 : V)
    (hdiv : ∃ i, i < min k1.length k2.length ∧ k1.getD i 0 ≠ k2.getD i 0) :
    ∃ t1 t2 : ArtTree V,
      ArtTree.new.insert k1 k1.length v1 = some (t1, none) ∧
      t1.insert k2 k2.length v2 = some (t2, none) ∧
      t2.get_mut k1 k1.length = some (some v1) ∧
      t2.get_mut k2 k2.length = some (some v2) := by
  obtain ⟨i, hi, hine⟩ := hdiv
  -- the first divergence index
  set d := match_len k1 k2 0 0 (min k1.length k2.length) with hd_def
  have hd_lt : d < min k1.length k2.length := by
    rcases Nat.lt_or_ge d (min k1.length k2.length) with h | h
    · exact h
    · exfalso
      have hiltd : i < d := Nat.lt_of_lt_of_le hi h
      exact hine (by simpa using match_len_agree k1 k2 (min k1.length k2.length) 0 0 i hiltd)
  have hagree : ∀ j, j < d → k1.getD j 0 = k2.getD j 0 := fun j hj => by
    simpa using match_len_agree k1 k2 (min k1.length k2.length) 0 0 j hj
  have hne_d : k1.getD d 0 ≠ k2.getD d 0 := by
    simpa using match_len_mismatch k1 k2 (min k1.length k2.length) 0 0 hd_lt
  have hd_k1 : d < k1.length := Nat.lt_of_lt_of_le hd_lt (Nat.min_le_left _ _)
  have hd_k2 : d < k2.length := Nat.lt_of_lt_of_le hd_lt (Nat.min_le_right _ _)
  have hins1 : (ArtTree.new : ArtTree V).insert k1 k1.length v1
      = some (⟨Node.Leaf (ArtNodeLeaf.new k1 k1.length v1), 1⟩, none) := rfl
  -- the second insert splits the leaf
  have hmat : (ArtNodeLeaf.new k1 k1.length v1).matches k2 k2.length 0 = false := by
    by_cases hlen : k1.length = k2.length
    · have hne12 : k1 ≠ k2 := fun he => hne_d (by rw [he])
      simp [ArtNodeLeaf.matches, ArtNodeLeaf.new, hlen, hne12]
    · simp [ArtNodeLeaf.matches, ArtNodeLeaf.new, hlen]
  have hlcp : (ArtNodeLeaf.new k1 k1.length v1).longest_common_prefix_len
      (ArtNodeLeaf.new k2 k2.length v2) 0 = some d := by
    simp [ArtNodeLeaf.longest_common_prefix_len, ArtNodeLeaf.new, hd_def]
  have hob : k1[0 + d]? = some (k1.getD d 0) := by
    rw [Nat.zero_add, List.getElem?_eq_getElem hd_k1, List.getD_eq_getElem k1 0 hd_k1]
  have hnb : k2[0 + d]? = some (k2.getD d 0) := by
    rw [Nat.zero_add, List.getElem?_eq_getElem hd_k2, List.getD_eq_getElem k2 0 hd_k2]
  have hins2pre : recursive_insert (k2.length + 2)
      (Node.Leaf (ArtNodeLeaf.new k1 k1.length v1)) k2 k2.length v2 0 true
      = (add_child 2 (InternalNodeHeader.mk d 0 (build_partial_bytes k2 0 d))
          (ArtNodeInternalInner.Node4 (List.replicate 4 0) (List.replicate 4 Node.Empty))
          (k1.getD d 0) (Node.Leaf (ArtNodeLeaf.new k1 k1.length v1))).bind
          fun p1 => (add_child 2 p1.1 p1.2 (k2.getD d 0)
              (Node.Leaf (ArtNodeLeaf.new k2 k2.length v2))).bind
            fun p2 => some (Node.Internal p2.1 p2.2, none) := by
    rw [recursive_insert]
    simp only [hmat, Bool.false_eq_true, if_false]
    rw [hlcp]
    simp only [Bind.bind, Option.bind, ArtNodeLeaf.new, hob, hnb]
  -- the cached-prefix check passes for both keys
  have hpb1 : ∀ j, j < min MAX_PREFIX_LEN d →
      (build_partial_bytes k2 0 d).getD (0 + j) 0 = k1.getD (0 + j) 0 := by
    intro j hj
    rw [Nat.zero_add, build_partial_bytes_getD k2 0 d j hj, Nat.zero_add]
    exact (hagree j (Nat.lt_of_lt_of_le hj (Nat.min_le_right _ _))).symm
  have hpb2 : ∀ j, j < min MAX_PREFIX_LEN d →
      (build_partial_bytes k2 0 d).getD (0 + j) 0 = k2.getD (0 + j) 0 := by
    intro j hj
    rw [Nat.zero_add, build_partial_bytes_getD k2 0 d j hj, Nat.zero_add]
  have hck1 : (InternalNodeHeader.mk d 2 (build_partial_bytes k2 0 d)).check_prefix_len
      k1 k1.length 0 = min MAX_PREFIX_LEN d := by
    show match_len (build_partial_bytes k2 0 d) k1 0 0 (min (min d MAX_PREFIX_LEN) (k1.length - 0)) =
      min MAX_PREFIX_LEN d
    rw [show min (min d MAX_PREFIX_LEN) (k1.length - 0) = min MAX_PREFIX_LEN d from by omega]
    exact match_len_eq_of_agree _ _ _ 0 0 hpb1
  have hck2 : (InternalNodeHeader.mk d 2 (build_partial_bytes k2 0 d)).check_prefix_len
      k2 k2.length 0 = min MAX_PREFIX_LEN d := by
    show match_len (build_partial_bytes k2 0 d) k2 0 0 (min (min d MAX_PREFIX_LEN) (k2.length - 0)) =
      min MAX_PREFIX_LEN d
    rw [show min (min d MAX_PREFIX_LEN) (k2.length - 0) = min MAX_PREFIX_LEN d from by omega]
    exact match_len_eq_of_agree _ _ _ 0 0 hpb2
  have hdep : (if d ≠ 0 then 0 + d else 0) = d := by
    by_cases h0 : d = 0 <;> simp [h0]
  have hkd1 : k1[d]? = some (k1.getD d 0) := by
    rw [List.getElem?_eq_getElem hd_k1, List.getD_eq_getElem k1 0 hd_k1]
  have hkd2 : k2[d]? = some (k2.getD d 0) := by
    rw [List.getElem?_eq_getElem hd_k2, List.getD_eq_getElem k2 0 hd_k2]
  have hmatch1 : ∀ dep : Nat, (ArtNodeLeaf.new k1 k1.length v1).matches k1 k1.length dep = true := by
    intro dep; simp [ArtNodeLeaf.matches, ArtNodeLeaf.new]
  have hmatch2 : ∀ dep : Nat, (ArtNodeLeaf.new k2 k2.length v2).matches k2 k2.length dep = true := by
    intro dep; simp [ArtNodeLeaf.matches, ArtNodeLeaf.new]
  have hne_d2 : ¬(k1[d]?.getD 0 = k2[d]?.getD 0) := by simpa [List.getD] using hne_d
  have hne_d3 : ¬(k2[d]?.getD 0 = k1[d]?.getD 0) := fun h => hne_d2 h.symm
  have hval1 : (ArtNodeLeaf.new k1 k1.length v1).value = v1 := rfl
  have hval2 : (ArtNodeLeaf.new k2 k2.length v2).value = v2 := rfl
  rcases Nat.lt_or_gt_of_ne hne_d with hblt | hbgt
  · -- k1.getD d < k2.getD d: slots [k1 byte, k2 byte]
    have hadd1 := add_child_empty4 (InternalNodeHeader.mk d 0 (build_partial_bytes k2 0 d)) rfl
      (k1.getD d 0) (Node.Leaf (ArtNodeLeaf.new k1 k1.length v1))
    have hadd2 := add_child_one4_hi (InternalNodeHeader.mk d 1 (build_partial_bytes k2 0 d)) rfl
      (k1.getD d 0) (k2.getD d 0) (Node.Leaf (ArtNodeLeaf.new k1 k1.length v1))
      (Node.Leaf (ArtNodeLeaf.new k2 k2.length v2)) hblt
    have hins2 : recursive_insert (k2.length + 2)
        (Node.Leaf (ArtNodeLeaf.new k1 k1.length v1)) k2 k2.length v2 0 true
        = some (Node.Internal (InternalNodeHeader.mk d 2 (build_partial_bytes k2 0 d))
            (ArtNodeInternalInner.Node4 [k1.getD d 0, k2.getD d 0, 0, 0]
              [Node.Leaf (ArtNodeLeaf.new k1 k1.length v1),
               Node.Leaf (ArtNodeLeaf.new k2 k2.length v2), Node.Empty, Node.Empty]), none) := by
      rw [hins2pre, hadd1]
      simp only [Option.some_bind]
      exact congrArg (fun r : Option (InternalNodeHeader × ArtNodeInternalInner V) =>
        r.bind fun p2 => some (Node.Internal p2.1 p2.2, none)) hadd2
    refine ⟨⟨Node.Leaf (ArtNodeLeaf.new k1 k1.length v1), 1⟩,
      ⟨Node.Internal (InternalNodeHeader.mk d 2 (build_partial_bytes k2 0 d))
        (ArtNodeInternalInner.Node4 [k1.getD d 0, k2.getD d 0, 0, 0]
          [Node.Leaf (ArtNodeLeaf.new k1 k1.length v1),
           Node.Leaf (ArtNodeLeaf.new k2 k2.length v2), Node.Empty, Node.Empty]), 2⟩,
      hins1, ?_, ?_, ?_⟩
    · show (recursive_insert (k2.length + 2) (Node.Leaf (ArtNodeLeaf.new k1 k1.length v1))
          k2 k2.length v2 0 true).map _ = _
      rw [hins2]
      rfl
    · show get_go (k1.length + 1 + 1) _ k1 k1.length 0 = some (some v1)
      rw [get_go_internal_step (k1.length + 1) _ _ k1 k1.length 0 (fun hc => hc.2 hck1)]
      simp only [show (InternalNodeHeader.mk d 2 (build_partial_bytes k2 0 d)).partial_len = d
          from rfl, hdep, hkd1]
      simp [find_child, find_key_idx, get_go, hmatch1, hval1]
    · show get_go (k2.length + 1 + 1) _ k2 k2.length 0 = some (some v2)
      rw [get_go_internal_step (k2.length + 1) _ _ k2 k2.length 0 (fun hc => hc.2 hck2)]
      simp only [show (InternalNodeHeader.mk d 2 (build_partial_bytes k2 0 d)).partial_len = d
          from rfl, hdep, hkd2]
      simp [find_child, find_key_idx, get_go, hmatch2, hne_d, hne_d2, hval2]
  · -- k2.getD d < k1.getD d: slots [k2 byte, k1 byte]
    have hadd1 := add_child_empty4 (InternalNodeHeader.mk d 0 (build_partial_bytes k2 0 d)) rfl
      (k1.getD d 0) (Node.Leaf (ArtNodeLeaf.new k1 k1.length v1))
    have hadd2 := add_child_one4 (InternalNodeHeader.mk d 1 (build_partial_bytes k2 0 d)) rfl
      (k1.getD d 0) (k2.getD d 0) (Node.Leaf (ArtNodeLeaf.new k1 k1.length v1))
      (Node.Leaf (ArtNodeLeaf.new k2 k2.length v2)) hbgt
    have hins2 : recursive_insert (k2.length + 2)
        (Node.Leaf (ArtNodeLeaf.new k1 k1.length v1)) k2 k2.length v2 0 true
        = some (Node.Internal (InternalNodeHeader.mk d 2 (build_partial_bytes k2 0 d))
            (ArtNodeInternalInner.Node4 [k2.getD d 0, k1.getD d 0, 0, 0]
              [Node.Leaf (ArtNodeLeaf.new k2 k2.length v2),
               Node.Leaf (ArtNodeLeaf.new k1 k1.length v1), Node.Empty, Node.Empty]), none) := by
      rw [hins2pre, hadd1]
      simp only [Option.some_bind]
      exact congrArg (fun r : Option (InternalNodeHeader × ArtNodeInternalInner V) =>
        r.bind fun p2 => some (Node.Internal p2.1 p2.2, none)) hadd2
    refine ⟨⟨Node.Leaf (ArtNodeLeaf.new k1 k1.length v1), 1⟩,
      ⟨Node.Internal (InternalNodeHeader.mk d 2 (build_partial_bytes k2 0 d))
        (ArtNodeInternalInner.Node4 [k2.getD d 0, k1.getD d 0, 0, 0]
          [Node.Leaf (ArtNodeLeaf.new k2 k2.length v2),
           Node.Leaf (ArtNodeLeaf.new k1 k1.length v1), Node.Empty, Node.Empty]), 2⟩,
      hins1, ?_, ?_, ?_⟩
    · show (recursive_insert (k2.length + 2) (Node.Leaf (ArtNodeLeaf.new k1 k1.length v1))
          k2 k2.length v2 0 true).map _ = _
      rw [hins2]
      rfl
    · show get_go (k1.length + 1 + 1) _ k1 k1.length 0 = some (some v1)
      rw [get_go_internal_step (k1.length + 1) _ _ k1 k1.length 0 (fun hc => hc.2 hck1)]
      simp only [show (InternalNodeHeader.mk d 2 (build_partial_bytes k2 0 d)).partial_len = d
          from rfl, hdep, hkd1]
      simp [find_child, find_key_idx, get_go, hmatch1, hval1, hne_d3]
    · show get_go (k2.length + 1 + 1) _ k2 k2.length 0 = some (some v2)
      rw [get_go_internal_step (k2.length + 1) _ _ k2 k2.length 0 (fun hc => hc.2 hck2)]
      simp only [show (InternalNodeHeader.mk d 2 (build_partial_bytes k2 0 d)).partial_len = d
          from rfl, hdep, hkd2]
      simp [find_child, find_key_idx, get_go, hmatch2, hval2]

/-- Witness for the amended C7 at k1 = [1], k2 = [2]. -/
theorem c7_insert_two_keys_amended_witness :
    ∃ t1 t2 : ArtTree Nat,
      ArtTree.new.insert [1] 1 17 = some (t1, none) ∧
      t1.insert [2] 1 18 = some (t2, none) ∧
      t2.get_mut [1] 1 = some (some 17) ∧
      t2.get_mut [2] 1 = some (some 18) :=
  c7_insert_two_keys_amended [1] [2] 17 18 ⟨0, by decide, by decide⟩

theorem add_child_full4 {V : Type} (h : InternalNodeHeader) (hn : h.num_children = 4)
    (k0 k1 k2 k3 c : Nat) (c0 c1 c2 c3 ch : Node V)
    (hs01 : k0 < k1) (hs12 : k1 < k2) (hs23 : k2 < k3)
    (hc0 : c ≠ k0) (hc1 : c ≠ k1) (hc2 : c ≠ k2) (hc3 : c ≠ k3) :
    ∃ keys' children',
      add_child 2 h (ArtNodeInternalInner.Node4 [k0, k1, k2, k3] [c0, c1, c2, c3]) c ch
        = some ({ h with num_children := 5 }, ArtNodeInternalInner.Node16 keys' children') ∧
      ∀ b : Nat,
        find_child { h with num_children := 5 } (ArtNodeInternalInner.Node16 keys' children') b
          = if b = c then some ch
            else find_child h (ArtNodeInternalInner.Node4 [k0, k1, k2, k3] [c0, c1, c2, c3]) b := by
  have hr4 : List.range 4 = [0, 1, 2, 3] := rfl
  have hcopy : add_child 2 h (ArtNodeInternalInner.Node4 [k0, k1, k2, k3] [c0, c1, c2, c3]) c ch
      = add_child 1 h (ArtNodeInternalInner.Node16
          [k0, k1, k2, k3, 0, 0, 0, 0, 0, 0, 0, 0, 0, 0, 0, 0]
          [c0, c1, c2, c3, Node.Empty, Node.Empty, Node.Empty, Node.Empty, Node.Empty,
           Node.Empty, Node.Empty, Node.Empty, Node.Empty, Node.Empty, Node.Empty,
           Node.Empty]) c ch := by
    simp [add_child, hn, hr4, copy_front_loop, List.replicate, List.getD, List.set]
  rcases Nat.lt_or_gt_of_ne hc0 with hA | hgt0
  · -- c < k0, insertion at slot 0
    refine ⟨[c, k0, k1, k2, k3, 0, 0, 0, 0, 0, 0, 0, 0, 0, 0, 0],
      [ch, c0, c1, c2, c3, Node.Empty, Node.Empty, Node.Empty, Node.Empty, Node.Empty,
       Node.Empty, Node.Empty, Node.Empty, Node.Empty, Node.Empty, Node.Empty], ?_, ?_⟩
    · rw [hcopy]
      simp [add_child, hn, List.findIdx?_cons, hA, shift_ins, List.getD, List.set]
    · intro b
      simp only [find_child, hn, find_key_idx, List.getD, List.get?_eq_getElem?]
      simp only [List.getElem?_cons_zero, List.getElem?_cons_succ, Option.getD_some]
      split_ifs <;> first | rfl | omega
  · -- k0 < c
    rcases Nat.lt_or_gt_of_ne hc1 with hB | hgt1
    · -- insertion at slot 1
      refine ⟨[k0, c, k1, k2, k3, 0, 0, 0, 0, 0, 0, 0, 0, 0, 0, 0],
          [c0, ch, c1, c2, c3, Node.Empty, Node.Empty, Node.Empty, Node.Empty, Node.Empty, Node.Empty,
           Node.Empty, Node.Empty, Node.Empty, Node.Empty, Node.Empty], ?_, ?_⟩
      · rw [hcopy]
        have hp0 : ¬ c < k0 := by omega
        simp [add_child, hn, List.findIdx?_cons, hp0, hB, shift_ins, List.getD, List.set]
      · intro b
        simp only [find_child, hn, find_key_idx, List.getD, List.get?_eq_getElem?]
        simp only [List.getElem?_cons_zero, List.getElem?_cons_succ, Option.getD_some]
        split_ifs <;> first | rfl | omega
    · -- k1 < c
      rcases Nat.lt_or_gt_of_ne hc2 with hC | hgt2
      · -- insertion at slot 2
        refine ⟨[k0, k1, c, k2, k3, 0, 0, 0, 0, 0, 0, 0, 0, 0, 0, 0],
            [c0, c1, ch, c2, c3, Node.Empty, Node.Empty, Node.Empty, Node.Empty, Node.Empty, Node.Empty,
             Node.Empty, Node.Empty, Node.Empty, Node.Empty, Node.Empty], ?_, ?_⟩
        · rw [hcopy]
          have hp0 : ¬ c < k0 := by omega
          have hp1 : ¬ c < k1 := by omega
          simp [add_child, hn, List.findIdx?_cons, hp0, hp1, hC, shift_ins, List.getD, List.set]
        · intro b
          simp only [find_child, hn, find_key_idx, List.getD, List.get?_eq_getElem?]
          simp only [List.getElem?_cons_zero, List.getElem?_cons_succ, Option.getD_some]
          split_ifs <;> first | rfl | omega
      · -- k2 < c
        rcases Nat.lt_or_gt_of_ne hc3 with hD | hgt3
        · -- insertion at slot 3
          refine ⟨[k0, k1, k2, c, k3, 0, 0, 0, 0, 0, 0, 0, 0, 0, 0, 0],
              [c0, c1, c2, ch, c3, Node.Empty, Node.Empty, Node.Empty, Node.Empty, Node.Empty, Node.Empty,
               Node.Empty, Node.Empty, Node.Empty, Node.Empty, Node.Empty], ?_, ?_⟩
          · rw [hcopy]
            have hp0 : ¬ c < k0 := by omega
            have hp1 : ¬ c < k1 := by omega
            have hp2 : ¬ c < k2 := by omega
            simp [add_child, hn, List.findIdx?_cons, hp0, hp1, hp2, hD, shift_ins, List.getD, List.set]
          · intro b
            simp only [find_child, hn, find_key_idx, List.getD, List.get?_eq_getElem?]
            simp only [List.getElem?_cons_zero, List.getElem?_cons_succ, Option.getD_some]
            split_ifs <;> first | rfl | omega
        · -- insertion at slot 4
          refine ⟨[k0, k1, k2, k3, c, 0, 0, 0, 0, 0, 0, 0, 0, 0, 0, 0],
              [c0, c1, c2, c3, ch, Node.Empty, Node.Empty, Node.Empty, Node.Empty, Node.Empty, Node.Empty,
               Node.Empty, Node.Empty, Node.Empty, Node.Empty, Node.Empty], ?_, ?_⟩
          · rw [hcopy]
            have hp0 : ¬ c < k0 := by omega
            have hp1 : ¬ c < k1 := by omega
            have hp2 : ¬ c < k2 := by omega
            have hp3 : ¬ c < k3 := by omega
            simp [add_child, hn, List.findIdx?_cons, hp0, hp1, hp2, hp3, shift_ins, List.getD, List.set]
          · intro b
            simp only [find_child, hn, find_key_idx, List.getD, List.get?_eq_getElem?]
            simp only [List.getElem?_cons_zero, List.getElem?_cons_succ, Option.getD_some]
            split_ifs <;> first | rfl | omega

/-- find_key_idx misses when no scanned slot holds the byte. -/
theorem find_key_idx_eq_none (keys : List Nat) (c : Nat) :
    ∀ (steps lo : Nat), (∀ j, lo ≤ j → j < lo + steps → keys.getD j 0 ≠ c) →
      find_key_idx keys c lo steps = none := by
  intro steps
  induction steps with
  | zero => intro lo _; rfl
  | succ m ih =>
    intro lo hmiss
    rw [find_key_idx, if_neg (hmiss lo (Nat.le_refl lo) (by omega))]
    exact ih (lo + 1) fun j h1 h2 => hmiss j (by omega) (by omega)

/-- find_key_idx returns the first scanned slot holding the byte. -/
theorem find_key_idx_eq_some (keys : List Nat) (c : Nat) :
    ∀ (steps lo i : Nat), lo ≤ i → i < lo + steps → keys.getD i 0 = c →
      (∀ j, lo ≤ j → j < i → keys.getD j 0 ≠ c) →
      find_key_idx keys c lo steps = some i := by
  intro steps
  induction steps with
  | zero => intro lo i h1 h2 _ _; omega
  | succ m ih
    =>
    intro lo i h1 h2 hhit hmiss
    rcases Nat.eq_or_lt_of_le h1 with heq | hlt
    · subst heq
      rw [find_key_idx, if_pos hhit]
    · rw [find_key_idx, if_neg (hmiss lo (Nat.le_refl lo) hlt)]
      exact ih (lo + 1) i hlt (by omega) hhit fun j ha hb => hmiss j (by omega) hb

/-- findIdx? returns the first position satisfying the predicate (stated via
getD to match the use sites). -/
theorem findIdx_eq_some_of_getD {V : Type} (p : Node V → Bool) :
    ∀ (l : List (Node V)) (i : Nat), i < l.length →
      p (l.getD i Node.Empty) = true → (∀ j, j < i → p (l.getD j Node.Empty) = false) →
      l.findIdx? p = some i := by
  intro l
  induction l with
  | nil => intro i hi _ _; simp at hi
  | cons x xs ih =>
    intro i hi hp hmiss
    cases i with
    | zero =>
      simp only [List.getD, List.get?_eq_getElem?, List.getElem?_cons_zero,
        Option.getD_some] at hp
      simp [List.findIdx?_cons, hp]
    | succ i' =>
      have hx : p x = false := by
        have := hmiss 0 (Nat.succ_pos i')
        simpa [List.getD] using this
      have htail := ih i' (by simpa using hi)
        (by simpa [List.getD] using hp)
        (fun j hj => by
          have := hmiss (j + 1) (Nat.succ_lt_succ hj)
          simpa [List.getD] using this)
      simp [List.findIdx?_cons, hx, htail]

/-- Characterization of the Node16→Node48 promotion loop: every processed
index `i` registers `i+1` under byte `keys[i]` and moves child `i` across. -/
theorem promote16_loop_spec {V : Type} (keys : List Nat) (children : List (Node V)) :
    ∀ (idxs : List Nat) (kn : List Nat) (cn : List (Node V)),
      kn.length = 256 →
      idxs.Nodup →
      (∀ i ∈ idxs, keys.getD i 0 < 256) →
      (∀ i ∈ idxs, ∀ j ∈ idxs, keys.getD i 0 = keys.getD j 0 → i = j) →
      (∀ i ∈ idxs, i < cn.length) →
      ∃ kn' cn', promote16_loop keys children idxs kn cn = some (kn', cn') ∧
        kn'.length = 256 ∧ cn'.length = cn.length ∧
        (∀ b : Nat,
          kn'.getD b 0 = (match idxs.find? (fun i => keys.getD i 0 == b) with
            | some i => i + 1
            | none => kn.getD b 0)) ∧
        (∀ j : Nat,
          cn'.getD j Node.Empty =
            if j ∈ idxs then children.getD j Node.Empty else cn.getD j Node.Empty) := by
  intro idxs
  induction idxs with
  | nil =>
    intro kn cn hkn _ _ _ _
    exact ⟨kn, cn, rfl, hkn, rfl, fun b => by simp [List.find?], fun j => by simp⟩
  | cons i rest ih =>
    intro kn cn hkn hnd hbyte hinj hlt
    have hib : keys.getD i 0 < 256 := hbyte i (List.mem_cons_self i rest)
    have hset : set_checked kn (keys.getD i 0) (i + 1)
        = some (kn.set (keys.getD i 0) (i + 1)) := by
      rw [set_checked, if_pos (by omega)]
    have hnd' := hnd
    rw [List.nodup_cons] at hnd'
    obtain ⟨hirest, hndr⟩ := hnd'
    obtain ⟨kn', cn', hrun, hlen', hclen', hknb, hcnj⟩ :=
      ih (kn.set (keys.getD i 0) (i + 1)) (cn.set i (children.getD i Node.Empty))
        (by simpa using hkn) hndr
        (fun a ha => hbyte a (List.mem_cons_of_mem i ha))
        (fun a ha b hb => hinj a (List.mem_cons_of_mem i ha) b (List.mem_cons_of_mem i hb))
        (fun a ha => by simpa using hlt a (List.mem_cons_of_mem i ha))
    refine ⟨kn', cn', ?_, hlen', by simpa using hclen', ?_, ?_⟩
    · rw [promote16_loop, hset]
      exact hrun
    · intro b
      rw [hknb b]
      by_cases hb : keys.getD i 0 = b
      · have hfnone : rest.find? (fun a => keys.getD a 0 == b) = none := by
          rw [List.find?_eq_none]
          intro a ha
          simp only [beq_iff_eq]
          intro hab
          exact hirest (by
            have := hinj a (List.mem_cons_of_mem i ha) i (List.mem_cons_self i rest)
              (by rw [hab, hb])
            rwa [this] at ha)
        rw [hfnone, List.find?_cons_of_pos _ (by simpa using hb)]
        subst hb
        exact getD_set_eq kn (keys.getD i 0) (i + 1) 0 (by omega)
      · rw [List.find?_cons_of_neg _ (by simpa using hb)]
        cases hfind : rest.find? (fun a => keys.getD a 0 == b) with
        | some a => rfl
        | none => exact getD_set_ne kn (keys.getD i 0) b (i + 1) 0 hb
    · intro j
      rw [hcnj j]
      by_cases hjr : j ∈ rest
      · rw [if_pos hjr, if_pos (List.mem_cons_of_mem i hjr)]
      · rw [if_neg hjr]
        by_cases hji : j = i
        · subst hji
          rw [if_pos (List.mem_cons_self j rest),
            getD_set_eq cn j (children.getD j Node.Empty) Node.Empty
              (hlt j (List.mem_cons_self j rest))]
        · rw [if_neg (by simp [hji, hjr]),
            getD_set_ne cn i j (children.getD i Node.Empty) Node.Empty
              (fun h => hji h.symm)]

/-- getD of a replicate at its own default. -/
theorem getD_replicate {α : Type} (n i : Nat) (a : α) :
    (List.replicate n a).getD i a = a := by
  rcases Nat.lt_or_ge i n with h | h
  · rw [List.getD_eq_getElem _ _ (by simpa using h), List.getElem_replicate]
  · rw [List.getD_eq_default _ _ (by simpa using h)]

/-- Adding a 17th child to a full Node16 promotes it to Node48 with the byte
registered and every existing (byte, child) pair preserved. -/
theorem add_child_full16 {V : Type} (h : InternalNodeHeader) (hn : h.num_children = 16)
    (keys : List Nat) (children : List (Node V))
    (hbyte : ∀ i, i < 16 → keys.getD i 0 < 256)
    (hinj : ∀ i, i < 16 → ∀ j, j < 16 → keys.getD i 0 = keys.getD j 0 → i = j)
    (hne : ∀ i, i < 16 → ¬(children.getD i Node.Empty).is_empty = true)
    (c : Nat) (hc : c < 256) (ch : Node V) :
    ∃ kn cn,
      add_child 2 h (ArtNodeInternalInner.Node16 keys children) c ch
        = some ({ h with num_children := 17 }, ArtNodeInternalInner.Node48 kn cn) ∧
      (∀ b : Nat, b ≠ c →
        find_child { h with num_children := 17 } (ArtNodeInternalInner.Node48 kn cn) b
          = find_child h (ArtNodeInternalInner.Node16 keys children) b) ∧
      find_child { h with num_children := 17 } (ArtNodeInternalInner.Node48 kn cn) c
        = some ch := by
  obtain ⟨kn1, cn1, hrun, hlen1, hclen1, hknb, hcnj⟩ :=
    promote16_loop_spec keys children (List.range 16)
      (List.replicate 256 0) (List.replicate 48 Node.Empty)
      (by rw [List.length_replicate]) (List.nodup_range 16)
      (fun i hi => hbyte i (List.mem_range.mp hi))
      (fun i hi j hj => hinj i (List.mem_range.mp hi) j (List.mem_range.mp hj))
      (fun i hi => by
        have := List.mem_range.mp hi
        rw [List.length_replicate]
        omega)
  have hcn1len : cn1.length = 48 := by rw [hclen1, List.length_replicate]
  have hfind16 : cn1.findIdx? (fun ch => ch.is_empty) = some 16 := by
    apply findIdx_eq_some_of_getD
    · omega
    · rw [hcnj 16, if_neg (by simp [List.mem_range])]
      rw [getD_replicate]
      rfl
    · intro j hj
      rw [hcnj j, if_pos (List.mem_range.mpr hj)]
      have := hne j hj
      simpa using this
  have hsetk : set_checked kn1 c (16 + 1) = some (kn1.set c 17) := by
    rw [set_checked, if_pos (by omega)]
  refine ⟨kn1.set c 17, cn1.set 16 ch, ?_, ?_, ?_⟩
  · simp only [add_child]
    rw [if_neg (by omega)]
    simp only [Bind.bind]
    rw [hrun]
    simp only [Option.bind]
    rw [if_pos (by omega), hfind16]
    simp only [Bind.bind]
    rw [hsetk]
    simp only [Option.bind, hn]
  · intro b hbc
    have hk2 : (kn1.set c 17).getD b 0 = kn1.getD b 0 :=
      getD_set_ne kn1 c b 17 0 (fun h => hbc h.symm)
    cases hfind : (List.range 16).find? (fun i => keys.getD i 0 == b) with
    | some i =>
      have hi16 : i < 16 := List.mem_range.mp (List.mem_of_find?_eq_some hfind)
      have hib : keys.getD i 0 = b := by simpa using List.find?_some hfind
      have hkv : kn1.getD b 0 = i + 1 := by rw [hknb b, hfind]
      have hkey : find_key_idx keys b 0 h.num_children = some i := by
        rw [hn]
        exact find_key_idx_eq_some keys b 16 0 i (Nat.zero_le i) (by omega) hib
          (fun j _ hji hjb =>
            absurd (hinj j (by omega) i hi16 (by rw [hjb, ← hib])) (by omega))
      have hcv : (cn1.set 16 ch).getD i Node.Empty = children.getD i Node.Empty := by
        rw [getD_set_ne cn1 16 i ch Node.Empty (by omega), hcnj i,
          if_pos (List.mem_range.mpr hi16)]
      simp only [find_child, hkey, Option.map]
      rw [hk2, hkv, if_pos (show i + 1 ≠ 0 by omega)]
      rw [show i + 1 - 1 = i from rfl, hcv]
    | none =>
      have hkv : kn1.getD b 0 = 0 := by
        rw [hknb b, hfind]
        exact getD_replicate 256 b 0
      have hkey : find_key_idx keys b 0 h.num_children = none := by
        rw [hn]
        apply find_key_idx_eq_none
        intro j _ hj
        have := List.find?_eq_none.mp hfind j (List.mem_range.mpr (by omega))
        simpa using this
      simp only [find_child, hkey, Option.map]
      rw [hk2, hkv, if_neg (by omega)]
  · have h1 : (kn1.set c 17).getD c 0 = 17 := getD_set_eq kn1 c 17 0 (by omega)
    have h2 : (cn1.set 16 ch).getD 16 Node.Empty = ch :=
      getD_set_eq cn1 16 ch Node.Empty (by omega)
    simp only [find_child]
    rw [h1, if_pos (show (17:Nat) ≠ 0 by omega)]
    exact congrArg some h2

/-- Characterization of the Node48→Node256 promotion loop: every processed
byte with a nonzero slot reference receives the referenced child. -/
theorem promote48_loop_spec {V : Type} (keys : List Nat) :
    ∀ (idxs : List Nat) (src dst : List (Node V)),
      src.length = 48 →
      idxs.Nodup →
      (∀ i ∈ idxs, keys.getD i 0 ≠ 0 → keys.getD i 0 - 1 < 48) →
      (∀ i ∈ idxs, ∀ j ∈ idxs, keys.getD i 0 ≠ 0 → keys.getD i 0 = keys.getD j 0 → i = j) →
      (∀ i ∈ idxs, i < dst.length) →
      ∃ src' dst', promote48_loop keys idxs src dst = some (src', dst') ∧
        dst'.length = dst.length ∧
        ∀ b : Nat, dst'.getD b Node.Empty =
          if b ∈ idxs ∧ keys.getD b 0 ≠ 0
          then src.getD (keys.getD b 0 - 1) Node.Empty
          else dst.getD b Node.Empty := by
  intro idxs
  induction idxs with
  | nil =>
    intro src dst _ _ _ _ _
    exact ⟨src, dst, rfl, rfl, fun b => by simp⟩
  | cons i rest ih =>
    intro src dst hsrc hnd hslot hinj hdst
    rw [List.nodup_cons] at hnd
    obtain ⟨hirest, hndr⟩ := hnd
    by_cases hki : keys.getD i 0 ≠ 0
    · have hs : keys.getD i 0 - 1 < 48 := hslot i (List.mem_cons_self i rest) hki
      have hlt48 : keys.getD i 0 - 1 < src.length := by omega
      have hgetsrc : src[keys.getD i 0 - 1]? = some (src.getD (keys.getD i 0 - 1) Node.Empty) := by
        rw [List.getElem?_eq_getElem hlt48]
        exact congrArg some (List.getD_eq_getElem src Node.Empty hlt48).symm
      have hsetsrc : set_checked src (keys.getD i 0 - 1) Node.Empty
          = some (src.set (keys.getD i 0 - 1) Node.Empty) := by
        rw [set_checked, if_pos (by omega)]
      obtain ⟨src', dst', hrun, hlen, hb⟩ :=
        ih (src.set (keys.getD i 0 - 1) Node.Empty)
          (dst.set i (src.getD (keys.getD i 0 - 1) Node.Empty))
          (by simpa using hsrc) hndr
          (fun a ha => hslot a (List.mem_cons_of_mem i ha))
          (fun a ha b hb => hinj a (List.mem_cons_of_mem i ha) b (List.mem_cons_of_mem i hb))
          (fun a ha => by simpa using hdst a (List.mem_cons_of_mem i ha))
      refine ⟨src', dst', ?_, by simpa using hlen, ?_⟩
      · rw [promote48_loop, if_pos hki]
        simp only [Bind.bind]
        rw [hgetsrc]
        simp only [Option.bind]
        rw [hsetsrc]
        simp only [Option.bind]
        exact hrun
      · intro b
        rw [hb b]
        by_cases hbr : b ∈ rest
        · by_cases hkb : keys.getD b 0 ≠ 0
          · rw [if_pos ⟨hbr, hkb⟩, if_pos ⟨List.mem_cons_of_mem i hbr, hkb⟩]
            have hbi : b ≠ i := fun e => hirest (e ▸ hbr)
            have hslots : keys.getD b 0 - 1 ≠ keys.getD i 0 - 1 := by
              intro e
              have : keys.getD b 0 = keys.getD i 0 := by
                have h1 := hkb
                have h2 := hki
                omega
              exact hbi (hinj b (List.mem_cons_of_mem i hbr) i
                (List.mem_cons_self i rest) hkb this)
            exact getD_set_ne src (keys.getD i 0 - 1) (keys.getD b 0 - 1)
              Node.Empty Node.Empty (fun e => hslots e.symm)
          · rw [if_neg (by tauto), if_neg (by tauto)]
            have hbi : b ≠ i := fun e => hirest (e ▸ hbr)
            exact getD_set_ne dst i b (src.getD (keys.getD i 0 - 1) Node.Empty)
              Node.Empty (fun e => hbi e.symm)
        · by_cases hbi : b = i
          · subst hbi
            rw [if_neg (by tauto), if_pos ⟨List.mem_cons_self b rest, hki⟩]
            exact getD_set_eq dst b (src.getD (keys.getD b 0 - 1) Node.Empty)
              Node.Empty (hdst b (List.mem_cons_self b rest))
          · rw [if_neg (by tauto), if_neg (by simp [hbi, hbr])]
            exact getD_set_ne dst i b (src.getD (keys.getD i 0 - 1) Node.Empty)
              Node.Empty (fun e => hbi e.symm)
    · obtain ⟨src', dst', hrun, hlen, hb⟩ :=
        ih src dst hsrc hndr
          (fun a ha => hslot a (List.mem_cons_of_mem i ha))
          (fun a ha b hb => hinj a (List.mem_cons_of_mem i ha) b (List.mem_cons_of_mem i hb))
          (fun a ha => hdst a (List.mem_cons_of_mem i ha))
      refine ⟨src', dst', ?_, hlen, ?_⟩
      · rw [promote48_loop, if_neg hki]
        exact hrun
      · intro b
        rw [hb b]
        by_cases hbr : b ∈ rest
        · by_cases hkb : keys.getD b 0 ≠ 0
          · rw [if_pos ⟨hbr, hkb⟩, if_pos ⟨List.mem_cons_of_mem i hbr, hkb⟩]
          · rw [if_neg (by tauto), if_neg (by tauto)]
        · by_cases hbi : b = i
          · subst hbi
            rw [if_neg (by tauto), if_neg (by tauto)]
          · rw [if_neg (by tauto), if_neg (by simp [hbi, hbr])]

/-- Adding a 49th child to a full Node48 promotes it to Node256 with the byte
registered and every existing (byte, child) pair preserved. -/
theorem add_child_full48 {V : Type} (h : InternalNodeHeader) (hn : h.num_children = 48)
    (keys : List Nat) (children : List (Node V))
    (hklen : keys.length = 256) (hchlen : children.length = 48)
    (hbyte : ∀ b, b < 256 → keys.getD b 0 ≤ 48)
    (hinj : ∀ b1, b1 < 256 → ∀ b2, b2 < 256 → keys.getD b1 0 ≠ 0 →
      keys.getD b1 0 = keys.getD b2 0 → b1 = b2)
    (hne : ∀ b, b < 256 → keys.getD b 0 ≠ 0 →
      ¬(children.getD (keys.getD b 0 - 1) Node.Empty).is_empty = true)
    (c : Nat) (hc : c < 256) (ch : Node V) (hch : ¬ ch.is_empty = true) :
    ∃ cn,
      add_child 2 h (ArtNodeInternalInner.Node48 keys children) c ch
        = some ({ h with num_children := 49 }, ArtNodeInternalInner.Node256 cn) ∧
      (∀ b : Nat, b ≠ c →
        find_child { h with num_children := 49 } (ArtNodeInternalInner.Node256 cn) b
          = find_child h (ArtNodeInternalInner.Node48 keys children) b) ∧
      find_child { h with num_children := 49 } (ArtNodeInternalInner.Node256 cn) c
        = some ch := by
  obtain ⟨src', dst', hrun, hlen, hb⟩ :=
    promote48_loop_spec keys (List.range 256) children (List.replicate 256 Node.Empty)
      hchlen (List.nodup_range 256)
      (fun i hi hnz => by have := hbyte i (List.mem_range.mp hi); omega)
      (fun i hi j hj => hinj i (List.mem_range.mp hi) j (List.mem_range.mp hj))
      (fun i hi => by
        rw [List.length_replicate]
        exact List.mem_range.mp hi)
  have hdlen : dst'.length = 256 := by rw [hlen, List.length_replicate]
  have hsetc : set_checked dst' c ch = some (dst'.set c ch) := by
    rw [set_checked, if_pos (by omega)]
  refine ⟨dst'.set c ch, ?_, ?_, ?_⟩
  · simp only [add_child]
    rw [if_neg (by omega)]
    simp only [Bind.bind]
    rw [hrun]
    simp only [Option.bind]
    rw [hsetc]
    simp only [Option.bind, hn]
  · intro b hbc
    have hcnb : (dst'.set c ch).getD b Node.Empty = dst'.getD b Node.Empty :=
      getD_set_ne dst' c b ch Node.Empty (fun e => hbc e.symm)
    by_cases hb256 : b < 256
    · by_cases hkz : keys.getD b 0 ≠ 0
      · have hdst : dst'.getD b Node.Empty = children.getD (keys.getD b 0 - 1) Node.Empty := by
          rw [hb b, if_pos ⟨List.mem_range.mpr hb256, hkz⟩]
        have hnemp := hne b hb256 hkz
        simp only [find_child]
        rw [hcnb, hdst, if_neg hnemp, if_pos hkz]
      · have hdst : dst'.getD b Node.Empty = Node.Empty := by
          rw [hb b, if_neg (by tauto), getD_replicate]
        simp only [find_child]
        rw [hcnb, hdst, if_pos (show Node.Empty.is_empty (V := V) = true from rfl),
          if_neg hkz]
    · have hkz : ¬ keys.getD b 0 ≠ 0 := by
        rw [List.getD_eq_default _ _ (by omega)]
        omega
      have hdst : dst'.getD b Node.Empty = Node.Empty := by
        rw [hb b, if_neg (by
          intro hcontra
          exact hb256 (List.mem_range.mp hcontra.1)), getD_replicate]
      simp only [find_child]
      rw [hcnb, hdst, if_pos (show Node.Empty.is_empty (V := V) = true from rfl),
        if_neg hkz]
  · have h2 : (dst'.set c ch).getD c Node.Empty = ch :=
      getD_set_eq dst' c ch Node.Empty (by omega)
    simp only [find_child]
    rw [h2, if_neg hch]

/-- Characterization of the Node256→Node48 demotion loop: live bytes are
packed in scan order into the 48-slot pool with their 1-based slot recorded
under the byte. -/
theorem pack256_loop_spec {V : Type} (children : List (Node V)) :
    ∀ (idxs : List Nat) (pos : Nat) (kn : List Nat) (cn : List (Node V)),
      idxs.Nodup →
      pos + idxs.countP (fun j => !(children.getD j Node.Empty).is_empty) ≤ cn.length →
      (∀ i ∈ idxs, i < kn.length) →
      ∃ pos' kn' cn',
        pack256_loop children idxs pos kn cn = some (pos', kn', cn') ∧
        pos' = pos + idxs.countP (fun j => !(children.getD j Node.Empty).is_empty) ∧
        kn'.length = kn.length ∧ cn'.length = cn.length ∧
        (∀ b, b ∉ idxs → kn'.getD b 0 = kn.getD b 0) ∧
        (∀ b ∈ idxs, (children.getD b Node.Empty).is_empty = true →
          kn'.getD b 0 = kn.getD b 0) ∧
        (∀ b ∈ idxs, ¬(children.getD b Node.Empty).is_empty = true →
          pos < kn'.getD b 0 ∧ kn'.getD b 0 ≤ pos' ∧
          cn'.getD (kn'.getD b 0 - 1) Node.Empty = children.getD b Node.Empty) ∧
        (∀ j, j < pos → cn'.getD j Node.Empty = cn.getD j Node.Empty) := by
  intro idxs
  induction idxs with
  | nil =>
    intro pos kn cn _ _ _
    exact ⟨pos, kn, cn, rfl, by simp, rfl, rfl,
      fun b _ => rfl, fun b hb => absurd hb (List.not_mem_nil b),
      fun b hb => absurd hb (List.not_mem_nil b), fun j _ => rfl⟩
  | cons i rest ih =>
    intro pos kn cn hnd hbound hknlen
    rw [List.nodup_cons] at hnd
    obtain ⟨hirest, hndr⟩ := hnd
    by_cases hl : (children.getD i Node.Empty).is_empty = true
    · have hcnt : (i :: rest).countP (fun j => !(children.getD j Node.Empty).is_empty)
          = rest.countP (fun j => !(children.getD j Node.Empty).is_empty) := by
        have hpi : (!(children.getD i Node.Empty).is_empty) = false := by
          rw [hl]
          rfl
        rw [List.countP_cons, hpi]
        rfl
      obtain ⟨pos', kn', cn', hrun, hpos, hkl, hcl, hmiss, hemp, hlivp, hlow⟩ :=
        ih pos kn cn hndr (by omega) (fun a ha => hknlen a (List.mem_cons_of_mem i ha))
      refine ⟨pos', kn', cn', ?_, by omega, hkl, hcl, ?_, ?_, ?_, hlow⟩
      · rw [pack256_loop, if_neg (fun hc => hc hl)]
        exact hrun
      · intro b hb
        exact hmiss b (fun hbr => hb (List.mem_cons_of_mem i hbr))
      · intro b hb hbe
        by_cases hbr : b ∈ rest
        · exact hemp b hbr hbe
        · exact hmiss b hbr
      · intro b hb hbl
        rcases List.mem_cons.mp hb with hbi | hbr
        · subst hbi
          exact absurd hl hbl
        · exact hlivp b hbr hbl
    · have hcnt : (i :: rest).countP (fun j => !(children.getD j Node.Empty).is_empty)
          = rest.countP (fun j => !(children.getD j Node.Empty).is_empty) + 1 := by
        have hpi : (!(children.getD i Node.Empty).is_empty) = true := by
          cases hy : (children.getD i Node.Empty).is_empty with
          | true => exact absurd hy hl
          | false => rfl
        rw [List.countP_cons, hpi]
        rfl
      have hposlt : pos < cn.length := by omega
      have hset : set_checked cn pos (children.getD i Node.Empty)
          = some (cn.set pos (children.getD i Node.Empty)) := by
        rw [set_checked, if_pos hposlt]
      obtain ⟨pos', kn', cn', hrun, hpos, hkl, hcl, hmiss, hemp, hlivp, hlow⟩ :=
        ih (pos + 1) (kn.set i (pos + 1)) (cn.set pos (children.getD i Node.Empty))
          hndr (by rw [List.length_set]; omega)
          (fun a ha => by
            rw [List.length_set]
            exact hknlen a (List.mem_cons_of_mem i ha))
      have hkl' : kn'.length = kn.length := by rw [hkl, List.length_set]
      have hcl' : cn'.length = cn.length := by rw [hcl, List.length_set]
      refine ⟨pos', kn', cn', ?_, by omega, hkl', hcl', ?_, ?_, ?_, ?_⟩
      · rw [pack256_loop, if_pos hl]
        simp only [Bind.bind]
        rw [hset]
        simp only [Option.bind]
        exact hrun
      · intro b hb
        rw [hmiss b (fun hbr => hb (List.mem_cons_of_mem i hbr)),
          getD_set_ne kn i b (pos + 1) 0 (fun e => hb (e ▸ List.mem_cons_self i rest))]
      · intro b hb hbe
        have hbi : b ≠ i := fun e => hl (e ▸ hbe)
        rcases List.mem_cons.mp hb with hbi' | hbr
        · exact absurd hbi' hbi
        · rw [hemp b hbr hbe, getD_set_ne kn i b (pos + 1) 0 (fun e => hbi e.symm)]
      · intro b hb hbl
        by_cases hbi : b = i
        · subst hbi
          have hknb : kn'.getD b 0 = pos + 1 := by
            rw [hmiss b hirest,
              getD_set_eq kn b (pos + 1) 0 (hknlen b (List.mem_cons_self b rest))]
          refine ⟨by omega, by omega, ?_⟩
          rw [hknb, show pos + 1 - 1 = pos from rfl, hlow pos (by omega),
            getD_set_eq cn pos (children.getD b Node.Empty) Node.Empty hposlt]
        · rcases List.mem_cons.mp hb with hbi' | hbr
          · exact absurd hbi' hbi
          · obtain ⟨h1, h2, h3⟩ := hlivp b hbr hbl
            exact ⟨by omega, h2, h3⟩
      · intro j hj
        rw [hlow j (by omega),
          getD_set_ne cn pos j (children.getD i Node.Empty) Node.Empty (by omega)]

/-- Deleting a leaf child from a Node256 with 38 recorded children demotes it
to a Node48 holding the 37 survivors, preserving every remaining
(byte, child) pair and unmapping the deleted byte. -/
theorem recursive_delete_demote256 {V : Type} (h : InternalNodeHeader)
    (children : List (Node V)) (key : List Nat) (key_len depth : Nat)
    (kb : Nat) (leaf : ArtNodeLeaf V) (f : Nat)
    (hpl : h.partial_len = 0)
    (hn : h.num_children = 38)
    (hkb : key[depth]? = some kb) (hkb256 : kb < 256)
    (hchlen : children.length = 256)
    (hleaf : children.getD kb Node.Empty = Node.Leaf leaf)
    (hmatch : leaf.matches key key_len (depth + 1) = true)
    (hlive : (List.range 256).countP
        (fun j => !((children.set kb Node.Empty).getD j Node.Empty).is_empty) = 37) :
    ∃ kn cn,
      recursive_delete (f + 1) (Node.Internal h (ArtNodeInternalInner.Node256 children))
          key key_len depth
        = some (Node.Internal { h with num_children := 37 }
            (ArtNodeInternalInner.Node48 kn cn), some leaf.value) ∧
      (∀ b : Nat, b ≠ kb →
        find_child { h with num_children := 37 } (ArtNodeInternalInner.Node48 kn cn) b
          = find_child h (ArtNodeInternalInner.Node256 children) b) ∧
      find_child { h with num_children := 37 } (ArtNodeInternalInner.Node48 kn cn) kb
        = none := by
  obtain ⟨pos', kn', cn', hrun, hpos, hknlen, hcnlen, hmiss, hemp, hlivp, hlow⟩ :=
    pack256_loop_spec (children.set kb Node.Empty) (List.range 256) 0
      (List.replicate 256 0) (List.replicate 48 Node.Empty)
      (List.nodup_range 256)
      (by
        rw [hlive, List.length_replicate]
        omega)
      (fun i hi => by
        rw [List.length_replicate]
        exact List.mem_range.mp hi)
  have hgetkb : children[kb]? = some (Node.Leaf leaf) := by
    rw [List.getElem?_eq_getElem (show kb < children.length by omega)]
    exact congrArg some
      (((List.getD_eq_getElem children Node.Empty (by omega)).symm).trans hleaf)
  refine ⟨kn', cn', ?_, ?_, ?_⟩
  · have hdepth : (if h.partial_len ≠ 0 then depth + h.partial_len else depth) = depth := by
      rw [hpl]
      simp
    have hleafdel : recursive_delete f (Node.Leaf leaf) key key_len (depth + 1)
        = some (Node.Empty, some leaf.value) := by
      rw [recursive_delete, if_pos hmatch]
    rw [recursive_delete, if_neg (fun hcontra => hcontra.1 hpl)]
    simp only [hdepth, hkb, find_child_index, Bind.bind, hn]
    rw [hgetkb]
    simp only [Option.bind]
    rw [hleafdel]
    simp only [Option.bind]
    rw [if_pos (show Node.Empty.is_empty (V := V) = true from rfl)]
    rw [if_pos trivial, hrun]
    rfl
  · intro b hbc
    have hc1b : (children.set kb Node.Empty).getD b Node.Empty
        = children.getD b Node.Empty :=
      getD_set_ne children kb b Node.Empty Node.Empty (fun e => hbc e.symm)
    by_cases hb256 : b < 256
    · by_cases hbl : ((children.set kb Node.Empty).getD b Node.Empty).is_empty = true
      · have hkn : kn'.getD b 0 = 0 := by
          rw [hemp b (List.mem_range.mpr hb256) hbl, getD_replicate]
        simp only [find_child]
        rw [hkn, if_neg (by omega), if_pos (show (children.getD b Node.Empty).is_empty = true from hc1b ▸ hbl)]
      · obtain ⟨h1, h2, h3⟩ := hlivp b (List.mem_range.mpr hb256) hbl
        simp only [find_child]
        rw [if_pos (show kn'.getD b 0 ≠ 0 by omega), h3, hc1b]
        rw [if_neg (show ¬(children.getD b Node.Empty).is_empty = true from hc1b ▸ hbl)]
    · have hkn : kn'.getD b 0 = 0 := by
        rw [hmiss b (fun hmem => hb256 (List.mem_range.mp hmem)), getD_replicate]
      have hemp2 : children.getD b Node.Empty = Node.Empty :=
        List.getD_eq_default children Node.Empty (by omega)
      simp only [find_child]
      rw [hkn, if_neg (by omega), hemp2,
        if_pos (show Node.Empty.is_empty (V := V) = true from rfl)]
  · have hkbearly : ((children.set kb Node.Empty).getD kb Node.Empty).is_empty = true := by
      rw [getD_set_eq children kb Node.Empty Node.Empty (by omega)]
      rfl
    have hkn : kn'.getD kb 0 = 0 := by
      rw [hemp kb (List.mem_range.mpr hkb256) hkbearly, getD_replicate]
    simp only [find_child]
    rw [hkn, if_neg (by omega)]

/-- If some scanned slot holds the byte, find_key_idx returns a scanned slot
holding the byte. -/
theorem find_key_idx_exists (keys : List Nat) (c : Nat) :
    ∀ (steps lo : Nat), (∃ t, lo ≤ t ∧ t < lo + steps ∧ keys.getD t 0 = c) →
      ∃ t', find_key_idx keys c lo steps = some t' ∧ lo ≤ t' ∧ t' < lo + steps ∧
        keys.getD t' 0 = c := by
  intro steps
  induction steps with
  | zero =>
    intro lo h
    obtain ⟨t, h1, h2, _⟩ := h
    omega
  | succ m ih =>
    intro lo h
    by_cases hlo : keys.getD lo 0 = c
    · exact ⟨lo, by rw [find_key_idx, if_pos hlo], Nat.le_refl lo, by omega, hlo⟩
    · obtain ⟨t, h1, h2, h3⟩ := h
      have ht : lo + 1 ≤ t := by
        rcases Nat.eq_or_lt_of_le h1 with he | hl
        · exact absurd h3 (he ▸ hlo)
        · exact hl
      obtain ⟨t', ht1, ht2, ht3, ht4⟩ := ih (lo + 1) ⟨t, ht, by omega, h3⟩
      exact ⟨t', by rw [find_key_idx, if_neg hlo]; exact ht1, by omega, by omega, ht4⟩

/-- Characterization of the Node48→Node16 demotion loop: live bytes are
gathered in scan order, the byte itself recorded in the key slot and the
referenced child moved beside it. -/
theorem gather48_loop_spec {V : Type} (keys : List Nat) :
    ∀ (idxs : List Nat) (child : Nat) (src : List (Node V)) (kn : List Nat)
      (cn : List (Node V)),
      idxs.Nodup →
      child + idxs.countP (fun j => keys.getD j 0 != 0) ≤ kn.length →
      child + idxs.countP (fun j => keys.getD j 0 != 0) ≤ cn.length →
      src.length = 48 →
      (∀ i ∈ idxs, keys.getD i 0 ≠ 0 → keys.getD i 0 - 1 < 48) →
      (∀ i ∈ idxs, ∀ j ∈ idxs, keys.getD i 0 ≠ 0 → keys.getD i 0 = keys.getD j 0 → i = j) →
      ∃ src' kn' cn',
        gather48_loop keys idxs child src kn cn = some (src', kn', cn') ∧
        kn'.length = kn.length ∧ cn'.length = cn.length ∧
        (∀ t, t < child → kn'.getD t 0 = kn.getD t 0 ∧
          cn'.getD t Node.Empty = cn.getD t Node.Empty) ∧
        (∀ b ∈ idxs, keys.getD b 0 ≠ 0 → ∃ t, child ≤ t ∧
          t < child + idxs.countP (fun j => keys.getD j 0 != 0) ∧
          kn'.getD t 0 = b ∧
          cn'.getD t Node.Empty = src.getD (keys.getD b 0 - 1) Node.Empty) ∧
        (∀ t, child ≤ t → t < child + idxs.countP (fun j => keys.getD j 0 != 0) →
          ∃ b, b ∈ idxs ∧ keys.getD b 0 ≠ 0 ∧ kn'.getD t 0 = b ∧
            cn'.getD t Node.Empty = src.getD (keys.getD b 0 - 1) Node.Empty) := by
  intro idxs
  induction idxs with
  | nil =>
    intro child src kn cn _ _ _ _ _ _
    refine ⟨src, kn, cn, rfl, rfl, rfl, fun t _ => ⟨rfl, rfl⟩,
      fun b hb => absurd hb (List.not_mem_nil b), fun t h1 h2 => ?_⟩
    rw [List.countP_nil] at h2
    omega
  | cons i rest ih =>
    intro child src kn cn hnd hknb hcnb hsrc hslot hinj
    rw [List.nodup_cons] at hnd
    obtain ⟨hirest, hndr⟩ := hnd
    by_cases hki : keys.getD i 0 ≠ 0
    · have hpi : (keys.getD i 0 != 0) = true := by
        cases hy : keys.getD i 0 != 0 with
        | true => rfl
        | false => exact absurd (by simpa using hy) hki
      have hcnt : (i :: rest).countP (fun j => keys.getD j 0 != 0)
          = rest.countP (fun j => keys.getD j 0 != 0) + 1 := by
        rw [List.countP_cons, hpi]
        rfl
      have hislot : keys.getD i 0 - 1 < 48 := hslot i (List.mem_cons_self i rest) hki
      have hsetkn : set_checked kn child i = some (kn.set child i) := by
        rw [set_checked, if_pos (by omega)]
      have hgetsrc : src[keys.getD i 0 - 1]?
          = some (src.getD (keys.getD i 0 - 1) Node.Empty) := by
        rw [List.getElem?_eq_getElem (show keys.getD i 0 - 1 < src.length by omega)]
        exact congrArg some (List.getD_eq_getElem src Node.Empty (by omega)).symm
      have hsetsrc : set_checked src (keys.getD i 0 - 1) Node.Empty
          = some (src.set (keys.getD i 0 - 1) Node.Empty) := by
        rw [set_checked, if_pos (by omega)]
      have hsetcn : set_checked cn child (src.getD (keys.getD i 0 - 1) Node.Empty)
          = some (cn.set child (src.getD (keys.getD i 0 - 1) Node.Empty)) := by
        rw [set_checked, if_pos (by omega)]
      obtain ⟨src', kn', cn', hrun, hkl, hcl, hpre, hex, hsur⟩ :=
        ih (child + 1) (src.set (keys.getD i 0 - 1) Node.Empty) (kn.set child i)
          (cn.set child (src.getD (keys.getD i 0 - 1) Node.Empty))
          hndr
          (by rw [List.length_set]; omega)
          (by rw [List.length_set]; omega)
          (by rw [List.length_set]; exact hsrc)
          (fun a ha => hslot a (List.mem_cons_of_mem i ha))
          (fun a ha b hb => hinj a (List.mem_cons_of_mem i ha) b (List.mem_cons_of_mem i hb))
      have hsrcne : ∀ b ∈ rest, keys.getD b 0 ≠ 0 →
          (src.set (keys.getD i 0 - 1) Node.Empty).getD (keys.getD b 0 - 1) Node.Empty
            = src.getD (keys.getD b 0 - 1) Node.Empty := by
        intro b hbr hkb
        have hbne : b ≠ i := fun e => hirest (e ▸ hbr)
        have : keys.getD b 0 ≠ keys.getD i 0 := fun e =>
          hbne (hinj b (List.mem_cons_of_mem i hbr) i (List.mem_cons_self i rest) hkb e)
        exact getD_set_ne src (keys.getD i 0 - 1) (keys.getD b 0 - 1) Node.Empty Node.Empty
          (by omega)
      refine ⟨src', kn', cn', ?_, by rw [hkl, List.length_set],
        by rw [hcl, List.length_set], ?_, ?_, ?_⟩
      · rw [gather48_loop, if_pos hki]
        simp only [Bind.bind]
        rw [hsetkn]
        simp only [Option.bind]
        rw [hgetsrc]
        simp only [Option.bind]
        rw [hsetsrc]
        simp only [Option.bind]
        rw [hsetcn]
        simp only [Option.bind]
        exact hrun
      · intro t ht
        obtain ⟨h1, h2⟩ := hpre t (by omega)
        exact ⟨by rw [h1, getD_set_ne kn child t i 0 (by omega)],
          by rw [h2, getD_set_ne cn child t
            (src.getD (keys.getD i 0 - 1) Node.Empty) Node.Empty (by omega)]⟩
      · intro b hb hkb
        rcases List.mem_cons.mp hb with hbi | hbr
        · subst hbi
          obtain ⟨h1, h2⟩ := hpre child (by omega)
          refine ⟨child, Nat.le_refl child, by omega, ?_, ?_⟩
          · rw [h1, getD_set_eq kn child b 0 (by omega)]
          · rw [h2, getD_set_eq cn child (src.getD (keys.getD b 0 - 1) Node.Empty)
              Node.Empty (by omega)]
        · obtain ⟨t, ht1, ht2, ht3, ht4⟩ := hex b hbr hkb
          exact ⟨t, by omega, by omega, ht3, by rw [ht4, hsrcne b hbr hkb]⟩
      · intro t ht1 ht2
        by_cases htc : t = child
        · subst htc
          obtain ⟨h1, h2⟩ := hpre t (by omega)
          refine ⟨i, List.mem_cons_self i rest, hki, ?_, ?_⟩
          · rw [h1, getD_set_eq kn t i 0 (by omega)]
          · rw [h2, getD_set_eq cn t (src.getD (keys.getD i 0 - 1) Node.Empty)
              Node.Empty (by omega)]
        · obtain ⟨b, hb1, hb2, hb3, hb4⟩ := hsur t (by omega) (by omega)
          exact ⟨b, List.mem_cons_of_mem i hb1, hb2, hb3, by rw [hb4, hsrcne b hb1 hb2]⟩
    · have hpi : (keys.getD i 0 != 0) = false := by
        cases hy : keys.getD i 0 != 0 with
        | true => exact absurd (by simpa using hy) (by simpa using hki)
        | false => rfl
      have hcnt : (i :: rest).countP (fun j => keys.getD j 0 != 0)
          = rest.countP (fun j => keys.getD j 0 != 0) := by
        rw [List.countP_cons, hpi]
        rfl
      obtain ⟨src', kn', cn', hrun, hkl, hcl, hpre, hex, hsur⟩ :=
        ih child src kn cn hndr (by omega) (by omega) hsrc
          (fun a ha => hslot a (List.mem_cons_of_mem i ha))
          (fun a ha b hb => hinj a (List.mem_cons_of_mem i ha) b (List.mem_cons_of_mem i hb))
      refine ⟨src', kn', cn', ?_, hkl, hcl, hpre, ?_, ?_⟩
      · rw [gather48_loop, if_neg hki]
        exact hrun
      · intro b hb hkb
        rcases List.mem_cons.mp hb with hbi | hbr
        · exact absurd hkb (hbi ▸ hki)
        · obtain ⟨t, ht1, ht2, ht3, ht4⟩ := hex b hbr hkb
          exact ⟨t, ht1, by omega, ht3, ht4⟩
      · intro t ht1 ht2
        obtain ⟨b, hb1, hb2, hb3, hb4⟩ := hsur t ht1 (by omega)
        exact ⟨b, List.mem_cons_of_mem i hb1, hb2, hb3, hb4⟩

/-- Deleting a leaf child from a Node48 with 13 recorded children demotes it
to a Node16 holding the 12 survivors, preserving every remaining
(byte, child) pair and unmapping the deleted byte. -/
theorem recursive_delete_demote48 {V : Type} (h : InternalNodeHeader)
    (keys : List Nat) (children : List (Node V)) (key : List Nat)
    (key_len depth : Nat) (kb : Nat) (leaf : ArtNodeLeaf V) (f : Nat)
    (hpl : h.partial_len = 0)
    (hn : h.num_children = 13)
    (hkb : key[depth]? = some kb) (hkb256 : kb < 256)
    (hklen : keys.length = 256) (hchlen : children.length = 48)
    (hbyte : ∀ b, b < 256 → keys.getD b 0 ≤ 48)
    (hkbnz : keys.getD kb 0 ≠ 0)
    (hinj : ∀ b1, b1 < 256 → ∀ b2, b2 < 256 → keys.getD b1 0 ≠ 0 →
      keys.getD b1 0 = keys.getD b2 0 → b1 = b2)
    (hleaf : children.getD (keys.getD kb 0 - 1) Node.Empty = Node.Leaf leaf)
    (hmatch : leaf.matches key key_len (depth + 1) = true)
    (hlive : (List.range 256).countP (fun j => (keys.set kb 0).getD j 0 != 0) = 12) :
    ∃ kn cn,
      recursive_delete (f + 1) (Node.Internal h (ArtNodeInternalInner.Node48 keys children))
          key key_len depth
        = some (Node.Internal { h with num_children := 12 }
            (ArtNodeInternalInner.Node16 kn cn), some leaf.value) ∧
      (∀ b : Nat, b ≠ kb →
        find_child { h with num_children := 12 } (ArtNodeInternalInner.Node16 kn cn) b
          = find_child h (ArtNodeInternalInner.Node48 keys children) b) ∧
      find_child { h with num_children := 12 } (ArtNodeInternalInner.Node16 kn cn) kb
        = none := by
  have hcp48 : keys.getD kb 0 - 1 < 48 := by
    have := hbyte kb hkb256
    omega
  have hk2ne : ∀ b, b ≠ kb → (keys.set kb 0).getD b 0 = keys.getD b 0 :=
    fun b hb => getD_set_ne keys kb b 0 0 (fun e => hb e.symm)
  have hk2kb : (keys.set kb 0).getD kb 0 = 0 :=
    getD_set_eq keys kb 0 0 (by omega)
  obtain ⟨src', kn', cn', hrun, hkl, hcl, hpre, hex, hsur⟩ :=
    gather48_loop_spec (keys.set kb 0) (List.range 256) 0
      (children.set (keys.getD kb 0 - 1) Node.Empty)
      (List.replicate 16 0) (List.replicate 16 Node.Empty)
      (List.nodup_range 256)
      (by
        rw [hlive, List.length_replicate]
        omega)
      (by
        rw [hlive, List.length_replicate]
        omega)
      (by rw [List.length_set]; exact hchlen)
      (fun i hi hnz => by
        by_cases hik : i = kb
        · exact absurd (hik ▸ hk2kb) (hik ▸ hnz)
        · rw [hk2ne i hik] at hnz ⊢
          have := hbyte i (List.mem_range.mp hi)
          omega)
      (fun i hi j hj hnz he => by
        by_cases hik : i = kb
        · exact absurd (hik ▸ hk2kb) (hik ▸ hnz)
        · by_cases hjk : j = kb
          · rw [hk2ne i hik, hjk, hk2kb] at he
            exact absurd he (by rw [hk2ne i hik] at hnz; exact hnz)
          · rw [hk2ne i hik] at hnz he
            rw [hk2ne j hjk] at he
            exact hinj i (List.mem_range.mp hi) j (List.mem_range.mp hj) hnz he)
  have hfci : find_child_index h (ArtNodeInternalInner.Node48 keys children) kb
      = some (keys.getD kb 0 - 1) := by
    simp only [find_child_index]
    rw [if_pos hkbnz]
  have hgetcp : children[keys.getD kb 0 - 1]? = some (Node.Leaf leaf) := by
    rw [List.getElem?_eq_getElem (show keys.getD kb 0 - 1 < children.length by omega)]
    exact congrArg some
      (((List.getD_eq_getElem children Node.Empty (by omega)).symm).trans hleaf)
  have hsetkeys : set_checked keys kb 0 = some (keys.set kb 0) := by
    rw [set_checked, if_pos (by omega)]
  have hsetch2 : set_checked (children.set (keys.getD kb 0 - 1) Node.Empty)
      (keys.getD kb 0 - 1) Node.Empty
      = some (children.set (keys.getD kb 0 - 1) Node.Empty) := by
    rw [set_checked, if_pos (by rw [List.length_set]; omega), List.set_set]
  refine ⟨kn', cn', ?_, ?_, ?_⟩
  · have hdepth : (if h.partial_len ≠ 0 then depth + h.partial_len else depth) = depth := by
      rw [hpl]
      simp
    have hleafdel : recursive_delete f (Node.Leaf leaf) key key_len (depth + 1)
        = some (Node.Empty, some leaf.value) := by
      rw [recursive_delete, if_pos hmatch]
    rw [recursive_delete, if_neg (fun hc => hc.1 hpl)]
    simp only [hdepth, hkb, hfci, Bind.bind, hn]
    rw [hgetcp]
    simp only [Option.bind]
    rw [hleafdel]
    simp only [Option.bind]
    rw [if_pos (show Node.Empty.is_empty (V := V) = true from rfl)]
    rw [hsetkeys]
    simp only [Option.bind]
    rw [hsetch2]
    simp only [Option.bind]
    rw [if_pos trivial, hrun]
  · intro b hbc
    have hsrcb : keys.getD b 0 ≠ 0 →
        (children.set (keys.getD kb 0 - 1) Node.Empty).getD (keys.getD b 0 - 1) Node.Empty
          = children.getD (keys.getD b 0 - 1) Node.Empty := by
      intro hnz
      by_cases hb256 : b < 256
      · have : keys.getD b 0 ≠ keys.getD kb 0 := fun e =>
          hbc (hinj b hb256 kb hkb256 hnz e)
        exact getD_set_ne children (keys.getD kb 0 - 1) (keys.getD b 0 - 1)
          Node.Empty Node.Empty (by omega)
      · exact absurd (List.getD_eq_default keys 0 (by omega)) hnz
    by_cases hnz : keys.getD b 0 ≠ 0
    · have hb256 : b < 256 := by
        by_contra hge
        exact hnz (List.getD_eq_default keys 0 (by omega))
      have hk2b : (keys.set kb 0).getD b 0 ≠ 0 := by
        rw [hk2ne b hbc]
        exact hnz
      obtain ⟨t, ht1, ht2, ht3, ht4⟩ := hex b (List.mem_range.mpr hb256) hk2b
      obtain ⟨t', hf1, hf2, hf3, hf4⟩ := find_key_idx_exists kn' b 12 0
        ⟨t, ht1, by omega, ht3⟩
      obtain ⟨b', hb1, hb2, hb3, hb4⟩ := hsur t' hf2 (by omega)
      have hbb : b' = b := by rw [← hb3, hf4]
      subst hbb
      have hcnval : cn'.getD t' Node.Empty = children.getD (keys.getD b' 0 - 1) Node.Empty := by
        rw [hb4, hk2ne b' hbc]
        exact hsrcb hnz
      simp only [find_child]
      rw [hf1, if_pos hnz]
      simp only [Option.map]
      rw [hcnval]
    · have hfnone : find_key_idx kn' b 0 12 = none := by
        apply find_key_idx_eq_none
        intro j h1 h2
        obtain ⟨b', hb1, hb2, hb3, hb4⟩ := hsur j (by omega) (by omega)
        rw [hb3]
        intro he
        subst he
        rw [hk2ne b' hbc] at hb2
        exact hnz hb2
      simp only [find_child]
      rw [hfnone, if_neg hnz]
      rfl
  · have hfnone : find_key_idx kn' kb 0 12 = none := by
      apply find_key_idx_eq_none
      intro j h1 h2
      obtain ⟨b', hb1, hb2, hb3, hb4⟩ := hsur j (by omega) (by omega)
      rw [hb3]
      intro he
      subst he
      exact hb2 hk2kb
    simp only [find_child]
    rw [hfnone]
    rfl

/-- Characterization of the gap-closing shift of `recursive_delete`: slots
`i-1 .. i+s-2` take their right neighbour, the last vacated child slot is
emptied, everything else is untouched. -/
theorem del_shift_spec {V : Type} :
    ∀ (s i : Nat) (keys : List Nat) (children : List (Node V)),
      1 ≤ i → i + s ≤ keys.length → i + s ≤ children.length →
      ∃ ks cs, del_shift i s keys children = (ks, cs) ∧
        ks.length = keys.length ∧ cs.length = children.length ∧
        (∀ p, ks.getD p 0 =
          if i - 1 ≤ p ∧ p < i - 1 + s then keys.getD (p + 1) 0 else keys.getD p 0) ∧
        (∀ p, cs.getD p Node.Empty =
          if i - 1 ≤ p ∧ p < i - 1 + s then children.getD (p + 1) Node.Empty
          else if p = i + s - 1 ∧ 1 ≤ s then Node.Empty
          else children.getD p Node.Empty) := by
  intro s
  induction s with
  | zero =>
    intro i keys children hi _ _
    refine ⟨keys, children, rfl, rfl, rfl, fun p => ?_, fun p => ?_⟩
    · rw [if_neg (by omega)]
    · rw [if_neg (by omega), if_neg (by omega)]
  | succ s ih =>
    intro i keys children hi hkb hcb
    obtain ⟨ks, cs, hrun, hkl, hcl, hkp, hcp⟩ :=
      ih (i + 1) (keys.set (i - 1) (keys.getD i 0))
        ((children.set (i - 1) (children.getD i Node.Empty)).set i Node.Empty)
        (by omega)
        (by rw [List.length_set]; omega)
        (by rw [List.length_set, List.length_set]; omega)
    refine ⟨ks, cs, ?_, by rw [hkl, List.length_set],
      by rw [hcl, List.length_set, List.length_set], fun p => ?_, fun p => ?_⟩
    · rw [del_shift]
      exact hrun
    · rw [hkp p]
      by_cases h1 : i + 1 - 1 ≤ p ∧ p < i + 1 - 1 + s
      · rw [if_pos h1,
          getD_set_ne keys (i - 1) (p + 1) (keys.getD i 0) 0 (by omega),
          if_pos (by omega)]
      · rw [if_neg h1]
        by_cases hp : p = i - 1
        · subst hp
          rw [getD_set_eq keys (i - 1) (keys.getD i 0) 0 (by omega),
            if_pos (by omega), show i - 1 + 1 = i by omega]
        · rw [getD_set_ne keys (i - 1) p (keys.getD i 0) 0 (fun e => hp e.symm),
            if_neg (by omega)]
    · rw [hcp p]
      by_cases h1 : i + 1 - 1 ≤ p ∧ p < i + 1 - 1 + s
      · rw [if_pos h1,
          getD_set_ne _ i (p + 1) Node.Empty Node.Empty (by omega),
          getD_set_ne children (i - 1) (p + 1) (children.getD i Node.Empty)
            Node.Empty (by omega),
          if_pos (by omega)]
      · rw [if_neg h1]
        by_cases h2 : p = i + 1 + s - 1 ∧ 1 ≤ s
        · rw [if_pos h2, if_neg (by omega), if_pos (by omega)]
        · rw [if_neg h2]
          by_cases hp1 : p = i - 1
          · subst hp1
            rw [getD_set_ne _ i (i - 1) Node.Empty Node.Empty (by omega),
              getD_set_eq children (i - 1) (children.getD i Node.Empty)
                Node.Empty (by omega),
              if_pos (by omega), show i - 1 + 1 = i by omega]
          · by_cases hp2 : p = i
            · subst hp2
              rw [getD_set_eq (children.set (p - 1) (children.getD p Node.Empty)) p
                  Node.Empty Node.Empty (by rw [List.length_set]; omega),
                if_neg (by omega), if_pos (by omega)]
            · rw [getD_set_ne _ i p Node.Empty Node.Empty (fun e => hp2 e.symm),
                getD_set_ne children (i - 1) p (children.getD i Node.Empty)
                  Node.Empty (fun e => hp1 e.symm),
                if_neg (by omega), if_neg (by omega)]

/-- Characterization of the Node16→Node4 demotion copy: the first
`num_children` slots are copied across verbatim. -/
theorem copy_front_loop_spec {V : Type} (keys : List Nat) (children : List (Node V)) :
    ∀ (idxs : List Nat) (kn : List Nat) (cn : List (Node V)),
      (∀ i ∈ idxs, i < kn.length) → (∀ i ∈ idxs, i < cn.length) →
      ∃ kn' cn', copy_front_loop keys children idxs kn cn = (kn', cn') ∧
        kn'.length = kn.length ∧ cn'.length = cn.length ∧
        (∀ b, kn'.getD b 0 = if b ∈ idxs then keys.getD b 0 else kn.getD b 0) ∧
        (∀ b, cn'.getD b Node.Empty =
          if b ∈ idxs then children.getD b Node.Empty else cn.getD b Node.Empty) := by
  intro idxs
  induction idxs with
  | nil =>
    intro kn cn _ _
    exact ⟨kn, cn, rfl, rfl, rfl, fun b => by simp, fun b => by simp⟩
  | cons i rest ih =>
    intro kn cn hknb hcnb
    obtain ⟨kn', cn', hrun, hkl, hcl, hkp, hcp⟩ :=
      ih (kn.set i (keys.getD i 0)) (cn.set i (children.getD i Node.Empty))
        (fun a ha => by
          rw [List.length_set]
          exact hknb a (List.mem_cons_of_mem i ha))
        (fun a ha => by
          rw [List.length_set]
          exact hcnb a (List.mem_cons_of_mem i ha))
    refine ⟨kn', cn', ?_, by rw [hkl, List.length_set],
      by rw [hcl, List.length_set], fun b => ?_, fun b => ?_⟩
    · rw [copy_front_loop]
      exact hrun
    · rw [hkp b]
      by_cases hbr : b ∈ rest
      · rw [if_pos hbr, if_pos (List.mem_cons_of_mem i hbr)]
      · rw [if_neg hbr]
        by_cases hbi : b = i
        · subst hbi
          rw [getD_set_eq kn b (keys.getD b 0) 0 (hknb b (List.mem_cons_self b rest)),
            if_pos (List.mem_cons_self b rest)]
        · rw [getD_set_ne kn i b (keys.getD i 0) 0 (fun e => hbi e.symm),
            if_neg (by simp [hbi, hbr])]
    · rw [hcp b]
      by_cases hbr : b ∈ rest
      · rw [if_pos hbr, if_pos (List.mem_cons_of_mem i hbr)]
      · rw [if_neg hbr]
        by_cases hbi : b = i
        · subst hbi
          rw [getD_set_eq cn b (children.getD b Node.Empty) Node.Empty
              (hcnb b (List.mem_cons_self b rest)),
            if_pos (List.mem_cons_self b rest)]
        · rw [getD_set_ne cn i b (children.getD i Node.Empty) Node.Empty
              (fun e => hbi e.symm),
            if_neg (by simp [hbi, hbr])]

/-- Inversion: a find_key_idx hit lies in the scanned window, holds the byte,
and is the first such slot. -/
theorem find_key_idx_inv (keys : List Nat) (c : Nat) :
    ∀ (steps lo i : Nat), find_key_idx keys c lo steps = some i →
      lo ≤ i ∧ i < lo + steps ∧ keys.getD i 0 = c ∧
        (∀ t, lo ≤ t → t < i → keys.getD t 0 ≠ c) := by
  intro steps
  induction steps with
  | zero =>
    intro lo i hcontra
    exact absurd hcontra (by rw [find_key_idx]; exact Option.noConfusion)
  | succ m ih =>
    intro lo i hfind
    rw [find_key_idx] at hfind
    by_cases hlo : keys.getD lo 0 = c
    · rw [if_pos hlo] at hfind
      obtain rfl : lo = i := Option.some.inj hfind
      exact ⟨Nat.le_refl lo, by omega, hlo, fun t h1 h2 => absurd h1 (by omega)⟩
    · rw [if_neg hlo] at hfind
      obtain ⟨h1, h2, h3, h4⟩ := ih (lo + 1) i hfind
      refine ⟨by omega, by omega, h3, fun t ht1 ht2 => ?_⟩
      rcases Nat.eq_or_lt_of_le ht1 with he | hl
      · exact he ▸ hlo
      · exact h4 t hl ht2

/-- Inversion: a find_key_idx miss means no scanned slot holds the byte. -/
theorem find_key_idx_none_inv (keys : List Nat) (c : Nat) :
    ∀ (steps lo : Nat), find_key_idx keys c lo steps = none →
      ∀ j, lo ≤ j → j < lo + steps → keys.getD j 0 ≠ c := by
  intro steps
  induction steps with
  | zero =>
    intro lo _ j h1 h2
    omega
  | succ m ih =>
    intro lo hfind j h1 h2
    rw [find_key_idx] at hfind
    by_cases hlo : keys.getD lo 0 = c
    · rw [if_pos hlo] at hfind
      exact absurd hfind (Option.noConfusion)
    · rw [if_neg hlo] at hfind
      rcases Nat.eq_or_lt_of_le h1 with he | hl
      · exact he ▸ hlo
      · exact ih (lo + 1) hfind j hl (by omega)

/-- Deleting a leaf child from a Node16 with 4 recorded children demotes it
to a Node4 holding the 3 survivors, preserving every remaining (byte, child)
pair and unmapping the deleted byte. -/
theorem recursive_delete_demote16 {V : Type} (h : InternalNodeHeader)
    (keys : List Nat) (children : List (Node V)) (key : List Nat)
    (key_len depth : Nat) (kb cp : Nat) (leaf : ArtNodeLeaf V) (f : Nat)
    (hpl : h.partial_len = 0)
    (hn : h.num_children = 4)
    (hkb : key[depth]? = some kb)
    (hklen : keys.length = 16) (hchlen : children.length = 16)
    (hcp4 : cp < 4) (hcpkey : keys.getD cp 0 = kb)
    (hinj : ∀ i, i < 4 → ∀ j, j < 4 → keys.getD i 0 = keys.getD j 0 → i = j)
    (hleaf : children.getD cp Node.Empty = Node.Leaf leaf)
    (hmatch : leaf.matches key key_len (depth + 1) = true) :
    ∃ kn cn,
      recursive_delete (f + 1) (Node.Internal h (ArtNodeInternalInner.Node16 keys children))
          key key_len depth
        = some (Node.Internal { h with num_children := 3 }
            (ArtNodeInternalInner.Node4 kn cn), some leaf.value) ∧
      (∀ b : Nat, b ≠ kb →
        find_child { h with num_children := 3 } (ArtNodeInternalInner.Node4 kn cn) b
          = find_child h (ArtNodeInternalInner.Node16 keys children) b) ∧
      find_child { h with num_children := 3 } (ArtNodeInternalInner.Node4 kn cn) kb
        = none := by
  obtain ⟨ks2, cs2, hds, hksl, hcsl, hksp, hcsp⟩ :=
    del_shift_spec (4 - (cp + 1)) (cp + 1) keys (children.set cp Node.Empty)
      (by omega) (by omega) (by rw [List.length_set]; omega)
  obtain ⟨kn', cn', hcopy, hknl, hcnl, hknb, hcnb⟩ :=
    copy_front_loop_spec (ks2.set (4 - 1) 0) cs2 (List.range 3)
      (List.replicate 4 0) (List.replicate 4 Node.Empty)
      (fun i hi => by
        rw [List.length_replicate]
        have := List.mem_range.mp hi
        omega)
      (fun i hi => by
        rw [List.length_replicate]
        have := List.mem_range.mp hi
        omega)
  have hknt : ∀ t, t < 3 → kn'.getD t 0
      = if cp ≤ t then keys.getD (t + 1) 0 else keys.getD t 0 := by
    intro t ht
    rw [hknb t, if_pos (List.mem_range.mpr ht),
      getD_set_ne ks2 (4 - 1) t 0 0 (by omega), hksp t]
    by_cases hcpt : cp ≤ t
    · rw [if_pos (by omega), if_pos hcpt]
    · rw [if_neg (by omega), if_neg hcpt]
  have hcnt : ∀ t, t < 3 → cn'.getD t Node.Empty
      = if cp ≤ t then children.getD (t + 1) Node.Empty
        else children.getD t Node.Empty := by
    intro t ht
    rw [hcnb t, if_pos (List.mem_range.mpr ht), hcsp t]
    by_cases hcpt : cp ≤ t
    · rw [if_pos (by omega), if_pos hcpt,
        getD_set_ne children cp (t + 1) Node.Empty Node.Empty (by omega)]
    · rw [if_neg (by omega), if_neg (by omega), if_neg hcpt,
        getD_set_ne children cp t Node.Empty Node.Empty (by omega)]
  have hfci : find_child_index h (ArtNodeInternalInner.Node16 keys children) kb
      = some cp := by
    simp only [find_child_index, hn]
    exact find_key_idx_eq_some keys kb 4 0 cp (Nat.zero_le cp) (by omega) hcpkey
      (fun j _ hj hkj => absurd (hinj j (by omega) cp hcp4 (hkj.trans hcpkey.symm))
        (by omega))
  have hgetcp : children[cp]? = some (Node.Leaf leaf) := by
    rw [List.getElem?_eq_getElem (show cp < children.length by omega)]
    exact congrArg some
      (((List.getD_eq_getElem children Node.Empty (by omega)).symm).trans hleaf)
  have hsetk3 : set_checked ks2 (4 - 1) 0 = some (ks2.set (4 - 1) 0) := by
    rw [set_checked, if_pos (by omega)]
  refine ⟨kn', cn', ?_, ?_, ?_⟩
  · have hdepth : (if h.partial_len ≠ 0 then depth + h.partial_len else depth) = depth := by
      rw [hpl]
      simp
    have hleafdel : recursive_delete f (Node.Leaf leaf) key key_len (depth + 1)
        = some (Node.Empty, some leaf.value) := by
      rw [recursive_delete, if_pos hmatch]
    rw [recursive_delete, if_neg (fun hc => hc.1 hpl)]
    simp only [hdepth, hkb, hfci, Bind.bind, hn]
    rw [hgetcp]
    simp only [Option.bind]
    rw [hleafdel]
    simp only [Option.bind]
    rw [if_pos (show Node.Empty.is_empty (V := V) = true from rfl)]
    rw [hds, hsetk3]
    simp only [Option.bind]
    rw [if_pos trivial, hcopy]
  · intro b hbc
    simp only [find_child, hn]
    cases hjf : find_key_idx keys b 0 4 with
    | some j =>
      obtain ⟨_, hj4, hjb, hjfirst⟩ := find_key_idx_inv keys b 4 0 j hjf
      have hjcp : j ≠ cp := by
        intro e
        apply hbc
        rw [← hjb, e]
        exact hcpkey
      by_cases hjlt : j < cp
      · have hlhs : find_key_idx kn' b 0 3 = some j := by
          apply find_key_idx_eq_some kn' b 3 0 j (Nat.zero_le j) (by omega)
          · rw [hknt j (by omega), if_neg (by omega)]
            exact hjb
          · intro t _ htj
            rw [hknt t (by omega), if_neg (by omega)]
            exact hjfirst t (Nat.zero_le t) (by omega)
        rw [hlhs]
        simp only [Option.map]
        rw [hcnt j (by omega), if_neg (by omega)]
      · have hjgt : cp < j := by omega
        have hlhs : find_key_idx kn' b 0 3 = some (j - 1) := by
          apply find_key_idx_eq_some kn' b 3 0 (j - 1) (Nat.zero_le (j - 1)) (by omega)
          · rw [hknt (j - 1) (by omega), if_pos (by omega), show j - 1 + 1 = j by omega]
            exact hjb
          · intro t _ htj
            rw [hknt t (by omega)]
            by_cases hcpt : cp ≤ t
            · rw [if_pos hcpt]
              exact hjfirst (t + 1) (Nat.zero_le (t + 1)) (by omega)
            · rw [if_neg hcpt]
              exact hjfirst t (Nat.zero_le t) (by omega)
        rw [hlhs]
        simp only [Option.map]
        rw [hcnt (j - 1) (by omega), if_pos (by omega), show j - 1 + 1 = j by omega]
    | none =>
      have hmissall := find_key_idx_none_inv keys b 4 0 hjf
      have hlhs : find_key_idx kn' b 0 3 = none := by
        apply find_key_idx_eq_none
        intro t _ ht
        rw [hknt t (by omega)]
        by_cases hcpt : cp ≤ t
        · rw [if_pos hcpt]
          exact hmissall (t + 1) (Nat.zero_le (t + 1)) (by omega)
        · rw [if_neg hcpt]
          exact hmissall t (Nat.zero_le t) (by omega)
      rw [hlhs]
      rfl
  · simp only [find_child]
    have hlhs : find_key_idx kn' kb 0 3 = none := by
      apply find_key_idx_eq_none
      intro t _ ht
      rw [hknt t (by omega)]
      by_cases hcpt : cp ≤ t
      · rw [if_pos hcpt]
        intro he
        exact absurd (hinj (t + 1) (by omega) cp (by omega)
          (he.trans hcpkey.symm)) (by omega)
      · rw [if_neg hcpt]
        intro he
        exact absurd (hinj t (by omega) cp (by omega)
          (he.trans hcpkey.symm)) (by omega)
    rw [hlhs]
    rfl

/-- C9: a node holding exactly 4 children is a Node4; adding a 5th child
promotes it to Node16, the 17th to Node48, the 49th to Node256; conversely
deleting back past 37/12/3 recorded children demotes Node256/Node48/Node16 to
Node48/Node16/Node4.  Every transition preserves the remaining (byte, child)
pairs (and registers the added byte / unmaps the deleted byte). -/
theorem c9_variant_transitions (V : Type) :
    (∀ (h : InternalNodeHeader), h.num_children = 4 →
      ∀ (k0 k1 k2 k3 c : Nat) (c0 c1 c2 c3 ch : Node V),
        k0 < k1 → k1 < k2 → k2 < k3 → c ≠ k0 → c ≠ k1 → c ≠ k2 → c ≠ k3 →
        ∃ keys' children',
          add_child 2 h (ArtNodeInternalInner.Node4 [k0, k1, k2, k3] [c0, c1, c2, c3]) c ch
            = some ({ h with num_children := 5 }, ArtNodeInternalInner.Node16 keys' children') ∧
          ∀ b : Nat,
            find_child { h with num_children := 5 }
                (ArtNodeInternalInner.Node16 keys' children') b
              = if b = c then some ch
                else find_child h
                  (ArtNodeInternalInner.Node4 [k0, k1, k2, k3] [c0, c1, c2, c3]) b) ∧
    (∀ (h : InternalNodeHeader), h.num_children = 16 →
      ∀ (keys : List Nat) (children : List (Node V)),
        (∀ i, i < 16 → keys.getD i 0 < 256) →
        (∀ i, i < 16 → ∀ j, j < 16 → keys.getD i 0 = keys.getD j 0 → i = j) →
        (∀ i, i < 16 → ¬(children.getD i Node.Empty).is_empty = true) →
        ∀ (c : Nat), c < 256 → ∀ (ch : Node V),
        ∃ kn cn,
          add_child 2 h (ArtNodeInternalInner.Node16 keys children) c ch
            = some ({ h with num_children := 17 }, ArtNodeInternalInner.Node48 kn cn) ∧
          (∀ b : Nat, b ≠ c →
            find_child { h with num_children := 17 } (ArtNodeInternalInner.Node48 kn cn) b
              = find_child h (ArtNodeInternalInner.Node16 keys children) b) ∧
          find_child { h with num_children := 17 } (ArtNodeInternalInner.Node48 kn cn) c
            = some ch) ∧
    (∀ (h : InternalNodeHeader), h.num_children = 48 →
      ∀ (keys : List Nat) (children : List (Node V)),
        keys.length = 256 → children.length = 48 →
        (∀ b, b < 256 → keys.getD b 0 ≤ 48) →
        (∀ b1, b1 < 256 → ∀ b2, b2 < 256 → keys.getD b1 0 ≠ 0 →
          keys.getD b1 0 = keys.getD b2 0 → b1 = b2) →
        (∀ b, b < 256 → keys.getD b 0 ≠ 0 →
          ¬(children.getD (keys.getD b 0 - 1) Node.Empty).is_empty = true) →
        ∀ (c : Nat), c < 256 → ∀ (ch : Node V), ¬ ch.is_empty = true →
        ∃ cn,
          add_child 2 h (ArtNodeInternalInner.Node48 keys children) c ch
            = some ({ h with num_children := 49 }, ArtNodeInternalInner.Node256 cn) ∧
          (∀ b : Nat, b ≠ c →
            find_child { h with num_children := 49 } (ArtNodeInternalInner.Node256 cn) b
              = find_child h (ArtNodeInternalInner.Node48 keys children) b) ∧
          find_child { h with num_children := 49 } (ArtNodeInternalInner.Node256 cn) c
            = some ch) ∧
    (∀ (h : InternalNodeHeader) (children : List (Node V)) (key : List Nat)
        (key_len depth kb : Nat) (leaf : ArtNodeLeaf V) (f : Nat),
      h.partial_len = 0 → h.num_children = 38 →
      key[depth]? = some kb → kb < 256 → children.length = 256 →
      children.getD kb Node.Empty = Node.Leaf leaf →
      leaf.matches key key_len (depth + 1) = true →
      (List.range 256).countP
        (fun j => !((children.set kb Node.Empty).getD j Node.Empty).is_empty) = 37 →
      ∃ kn cn,
        recursive_delete (f + 1) (Node.Internal h (ArtNodeInternalInner.Node256 children))
            key key_len depth
          = some (Node.Internal { h with num_children := 37 }
              (ArtNodeInternalInner.Node48 kn cn), some leaf.value) ∧
        (∀ b : Nat, b ≠ kb →
          find_child { h with num_children := 37 } (ArtNodeInternalInner.Node48 kn cn) b
            = find_child h (ArtNodeInternalInner.Node256 children) b) ∧
        find_child { h with num_children := 37 } (ArtNodeInternalInner.Node48 kn cn) kb
          = none) ∧
    (∀ (h : InternalNodeHeader) (keys : List Nat) (children : List (Node V))
        (key : List Nat) (key_len depth kb : Nat) (leaf : ArtNodeLeaf V) (f : Nat),
      h.partial_len = 0 → h.num_children = 13 →
      key[depth]? = some kb → kb < 256 → keys.length = 256 → children.length = 48 →
      (∀ b, b < 256 → keys.getD b 0 ≤ 48) →
      keys.getD kb 0 ≠ 0 →
      (∀ b1, b1 < 256 → ∀ b2, b2 < 256 → keys.getD b1 0 ≠ 0 →
        keys.getD b1 0 = keys.getD b2 0 → b1 = b2) →
      children.getD (keys.getD kb 0 - 1) Node.Empty = Node.Leaf leaf →
      leaf.matches key key_len (depth + 1) = true →
      (List.range 256).countP (fun j => (keys.set kb 0).getD j 0 != 0) = 12 →
      ∃ kn cn,
        recursive_delete (f + 1) (Node.Internal h (ArtNodeInternalInner.Node48 keys children))
            key key_len depth
          = some (Node.Internal { h with num_children := 12 }
              (ArtNodeInternalInner.Node16 kn cn), some leaf.value) ∧
        (∀ b : Nat, b ≠ kb →
          find_child { h with num_children := 12 } (ArtNodeInternalInner.Node16 kn cn) b
            = find_child h (ArtNodeInternalInner.Node48 keys children) b) ∧
        find_child { h with num_children := 12 } (ArtNodeInternalInner.Node16 kn cn) kb
          = none) ∧
    (∀ (h : InternalNodeHeader) (keys : List Nat) (children : List (Node V))
        (key : List Nat) (key_len depth kb cp : Nat) (leaf : ArtNodeLeaf V) (f : Nat),
      h.partial_len = 0 → h.num_children = 4 →
      key[depth]? = some kb → keys.length = 16 → children.length = 16 →
      cp < 4 → keys.getD cp 0 = kb →
      (∀ i, i < 4 → ∀ j, j < 4 → keys.getD i 0 = keys.getD j 0 → i = j) →
      children.getD cp Node.Empty = Node.Leaf leaf →
      leaf.matches key key_len (depth + 1) = true →
      ∃ kn cn,
        recursive_delete (f + 1) (Node.Internal h (ArtNodeInternalInner.Node16 keys children))
            key key_len depth
          = some (Node.Internal { h with num_children := 3 }
              (ArtNodeInternalInner.Node4 kn cn), some leaf.value) ∧
        (∀ b : Nat, b ≠ kb →
          find_child { h with num_children := 3 } (ArtNodeInternalInner.Node4 kn cn) b
            = find_child h (ArtNodeInternalInner.Node16 keys children) b) ∧
        find_child { h with num_children := 3 } (ArtNodeInternalInner.Node4 kn cn) kb
          = none) := by
  refine ⟨?_, ?_, ?_, ?_, ?_, ?_⟩
  · intro h hn k0 k1 k2 k3 c c0 c1 c2 c3 ch hs01 hs12 hs23 hc0 hc1 hc2 hc3
    exact add_child_full4 h hn k0 k1 k2 k3 c c0 c1 c2 c3 ch hs01 hs12 hs23 hc0 hc1 hc2 hc3
  · intro h hn keys children hbyte hinj hne c hc ch
    exact add_child_full16 h hn keys children hbyte hinj hne c hc ch
  · intro h hn keys children hklen hchlen hbyte hinj hne c hc ch hch
    exact add_child_full48 h hn keys children hklen hchlen hbyte hinj hne c hc ch hch
  · intro h children key key_len depth kb leaf f hpl hn hkb hkb256 hchlen hleaf hmatch hlive
    exact recursive_delete_demote256 h children key key_len depth kb leaf f
      hpl hn hkb hkb256 hchlen hleaf hmatch hlive
  · intro h keys children key key_len depth kb leaf f hpl hn hkb hkb256 hklen hchlen
      hbyte hkbnz hinj hleaf hmatch hlive
    exact recursive_delete_demote48 h keys children key key_len depth kb leaf f
      hpl hn hkb hkb256 hklen hchlen hbyte hkbnz hinj hleaf hmatch hlive
  · intro h keys children key key_len depth kb cp leaf f hpl hn hkb hklen hchlen
      hcp4 hcpkey hinj hleaf hmatch
    exact recursive_delete_demote16 h keys children key key_len depth kb cp leaf f
      hpl hn hkb hklen hchlen hcp4 hcpkey hinj hleaf hmatch

set_option maxRecDepth 100000 in
set_option maxHeartbeats 4000000 in
/-- Witness for C9: each of the six transitions exercised on a concrete
node. -/
theorem c9_variant_transitions_witness :
    (∃ kn cn,
      add_child 2 (InternalNodeHeader.mk 0 4 (List.replicate 10 0))
          (ArtNodeInternalInner.Node4 [1, 2, 3, 4]
            [Node.Empty, Node.Empty, Node.Empty, Node.Empty]) 5 (Node.Empty : Node Nat)
        = some (InternalNodeHeader.mk 0 5 (List.replicate 10 0),
            ArtNodeInternalInner.Node16 kn cn) ∧
      ∀ b : Nat,
        find_child (InternalNodeHeader.mk 0 5 (List.replicate 10 0))
            (ArtNodeInternalInner.Node16 kn cn) b
          = if b = 5 then some (Node.Empty : Node Nat)
            else find_child (InternalNodeHeader.mk 0 4 (List.replicate 10 0))
              (ArtNodeInternalInner.Node4 [1, 2, 3, 4]
                [Node.Empty, Node.Empty, Node.Empty, Node.Empty]) b) ∧
    (∃ kn cn,
      add_child 2 (InternalNodeHeader.mk 0 16 (List.replicate 10 0))
          (ArtNodeInternalInner.Node16 (List.range 16)
            (List.replicate 16 (Node.Leaf (ArtNodeLeaf.mk 0 0 ([] : List Nat))))) 20
          (Node.Leaf (ArtNodeLeaf.mk 0 0 ([] : List Nat)))
        = some (InternalNodeHeader.mk 0 17 (List.replicate 10 0),
            ArtNodeInternalInner.Node48 kn cn) ∧
      (∀ b : Nat, b ≠ 20 →
        find_child (InternalNodeHeader.mk 0 17 (List.replicate 10 0))
            (ArtNodeInternalInner.Node48 kn cn) b
          = find_child (InternalNodeHeader.mk 0 16 (List.replicate 10 0))
            (ArtNodeInternalInner.Node16 (List.range 16)
              (List.replicate 16 (Node.Leaf (ArtNodeLeaf.mk 0 0 ([] : List Nat))))) b) ∧
      find_child (InternalNodeHeader.mk 0 17 (List.replicate 10 0))
          (ArtNodeInternalInner.Node48 kn cn) 20
        = some (Node.Leaf (ArtNodeLeaf.mk 0 0 ([] : List Nat)))) ∧
    (∃ cn,
      add_child 2 (InternalNodeHeader.mk 0 48 (List.replicate 10 0))
          (ArtNodeInternalInner.Node48 (List.replicate 256 0)
            (List.replicate 48 (Node.Empty : Node Nat))) 5
          (Node.Leaf (ArtNodeLeaf.mk 0 0 ([] : List Nat)))
        = some (InternalNodeHeader.mk 0 49 (List.replicate 10 0),
            ArtNodeInternalInner.Node256 cn) ∧
      (∀ b : Nat, b ≠ 5 →
        find_child (InternalNodeHeader.mk 0 49 (List.replicate 10 0))
            (ArtNodeInternalInner.Node256 cn) b
          = find_child (InternalNodeHeader.mk 0 48 (List.replicate 10 0))
            (ArtNodeInternalInner.Node48 (List.replicate 256 0)
              (List.replicate 48 (Node.Empty : Node Nat))) b) ∧
      find_child (InternalNodeHeader.mk 0 49 (List.replicate 10 0))
          (ArtNodeInternalInner.Node256 cn) 5
        = some (Node.Leaf (ArtNodeLeaf.mk 0 0 ([] : List Nat)))) ∧
    (∃ kn cn,
      recursive_delete 1
          (Node.Internal (InternalNodeHeader.mk 0 38 (List.replicate 10 0))
            (ArtNodeInternalInner.Node256
              ((List.range 38).map (fun i => Node.Leaf (ArtNodeLeaf.mk i 1 [i]))
                ++ List.replicate 218 (Node.Empty : Node Nat))))
          [0] 1 0
        = some (Node.Internal (InternalNodeHeader.mk 0 37 (List.replicate 10 0))
            (ArtNodeInternalInner.Node48 kn cn), some 0) ∧
      (∀ b : Nat, b ≠ 0 →
        find_child (InternalNodeHeader.mk 0 37 (List.replicate 10 0))
            (ArtNodeInternalInner.Node48 kn cn) b
          = find_child (InternalNodeHeader.mk 0 38 (List.replicate 10 0))
            (ArtNodeInternalInner.Node256
              ((List.range 38).map (fun i => Node.Leaf (ArtNodeLeaf.mk i 1 [i]))
                ++ List.replicate 218 (Node.Empty : Node Nat))) b) ∧
      find_child (InternalNodeHeader.mk 0 37 (List.replicate 10 0))
          (ArtNodeInternalInner.Node48 kn cn) 0
        = none) ∧
    (∃ kn cn,
      recursive_delete 1
          (Node.Internal (InternalNodeHeader.mk 0 13 (List.replicate 10 0))
            (ArtNodeInternalInner.Node48
              ((List.range 13).map (fun i => i + 1) ++ List.replicate 243 0)
              ((List.range 13).map (fun i => Node.Leaf (ArtNodeLeaf.mk i 1 [i]))
                ++ List.replicate 35 (Node.Empty : Node Nat))))
          [0] 1 0
        = some (Node.Internal (InternalNodeHeader.mk 0 12 (List.replicate 10 0))
            (ArtNodeInternalInner.Node16 kn cn), some 0) ∧
      (∀ b : Nat, b ≠ 0 →
        find_child (InternalNodeHeader.mk 0 12 (List.replicate 10 0))
            (ArtNodeInternalInner.Node16 kn cn) b
          = find_child (InternalNodeHeader.mk 0 13 (List.replicate 10 0))
            (ArtNodeInternalInner.Node48
              ((List.range 13).map (fun i => i + 1) ++ List.replicate 243 0)
              ((List.range 13).map (fun i => Node.Leaf (ArtNodeLeaf.mk i 1 [i]))
                ++ List.replicate 35 (Node.Empty : Node Nat))) b) ∧
      find_child (InternalNodeHeader.mk 0 12 (List.replicate 10 0))
          (ArtNodeInternalInner.Node16 kn cn) 0
        = none) ∧
    (∃ kn cn,
      recursive_delete 1
          (Node.Internal (InternalNodeHeader.mk 0 4 (List.replicate 10 0))
            (ArtNodeInternalInner.Node16 ([1, 2, 3, 4] ++ List.replicate 12 0)
              ([Node.Leaf (ArtNodeLeaf.mk 10 1 [1]), Node.Leaf (ArtNodeLeaf.mk 11 1 [2]),
                Node.Leaf (ArtNodeLeaf.mk 12 1 [3]), Node.Leaf (ArtNodeLeaf.mk 13 1 [4])]
                ++ List.replicate 12 (Node.Empty : Node Nat))))
          [1] 1 0
        = some (Node.Internal (InternalNodeHeader.mk 0 3 (List.replicate 10 0))
            (ArtNodeInternalInner.Node4 kn cn), some 10) ∧
      (∀ b : Nat, b ≠ 1 →
        find_child (InternalNodeHeader.mk 0 3 (List.replicate 10 0))
            (ArtNodeInternalInner.Node4 kn cn) b
          = find_child (InternalNodeHeader.mk 0 4 (List.replicate 10 0))
            (ArtNodeInternalInner.Node16 ([1, 2, 3, 4] ++ List.replicate 12 0)
              ([Node.Leaf (ArtNodeLeaf.mk 10 1 [1]), Node.Leaf (ArtNodeLeaf.mk 11 1 [2]),
                Node.Leaf (ArtNodeLeaf.mk 12 1 [3]), Node.Leaf (ArtNodeLeaf.mk 13 1 [4])]
                ++ List.replicate 12 (Node.Empty : Node Nat))) b) ∧
      find_child (InternalNodeHeader.mk 0 3 (List.replicate 10 0))
          (ArtNodeInternalInner.Node4 kn cn) 1
        = none) := by
  obtain ⟨p1, p2, p3, p4, p5, p6⟩ := c9_variant_transitions Nat
  refine ⟨?_, ?_, ?_, ?_, ?_, ?_⟩
  · exact p1 (InternalNodeHeader.mk 0 4 (List.replicate 10 0)) rfl 1 2 3 4 5
      Node.Empty Node.Empty Node.Empty Node.Empty Node.Empty
      (by decide) (by decide) (by decide) (by decide) (by decide) (by decide) (by decide)
  · exact p2 (InternalNodeHeader.mk 0 16 (List.replicate 10 0)) rfl (List.range 16)
      (List.replicate 16 (Node.Leaf (ArtNodeLeaf.mk 0 0 ([] : List Nat))))
      (by decide) (by decide) (by decide) 20 (by decide)
      (Node.Leaf (ArtNodeLeaf.mk 0 0 ([] : List Nat)))
  · exact p3 (InternalNodeHeader.mk 0 48 (List.replicate 10 0)) rfl
      (List.replicate 256 0) (List.replicate 48 (Node.Empty : Node Nat))
      (by rw [List.length_replicate]) (by rw [List.length_replicate])
      (fun b _ => by rw [getD_replicate]; omega)
      (fun b1 _ b2 _ hnz _ => absurd (getD_replicate 256 b1 0) hnz)
      (fun b _ hnz => absurd (getD_replicate 256 b 0) hnz)
      5 (by decide) (Node.Leaf (ArtNodeLeaf.mk 0 0 ([] : List Nat))) (by decide)
  · exact p4 (InternalNodeHeader.mk 0 38 (List.replicate 10 0))
      ((List.range 38).map (fun i => Node.Leaf (ArtNodeLeaf.mk i 1 [i]))
        ++ List.replicate 218 (Node.Empty : Node Nat))
      [0] 1 0 0 (ArtNodeLeaf.mk 0 1 [0]) 0
      rfl rfl rfl (by decide) rfl rfl rfl (by decide)
  · have h13 : ∀ b, b < 13 →
        ((List.range 13).map (fun i => i + 1) ++ List.replicate 243 0).getD b 0
          = b + 1 := by decide
    have h243 : ∀ b, 13 ≤ b →
        ((List.range 13).map (fun i => i + 1) ++ List.replicate 243 0).getD b 0
          = 0 := by
      intro b hb
      by_cases hb256 : b < 256
      · rw [List.getD_eq_getElem _ _ (by simp; omega)]
        rw [List.getElem_append_right (by simp; omega)]
        apply List.getElem_replicate
      · exact List.getD_eq_default _ _ (by simp; omega)
    exact p5 (InternalNodeHeader.mk 0 13 (List.replicate 10 0))
      ((List.range 13).map (fun i => i + 1) ++ List.replicate 243 0)
      ((List.range 13).map (fun i => Node.Leaf (ArtNodeLeaf.mk i 1 [i]))
        ++ List.replicate 35 (Node.Empty : Node Nat))
      [0] 1 0 0 (ArtNodeLeaf.mk 0 1 [0]) 0
      rfl rfl rfl (by decide) (by simp) (by simp)
      (fun b _ => by
        by_cases hb : b < 13
        · rw [h13 b hb]
          omega
        · rw [h243 b (by omega)]
          omega)
      (by decide)
      (fun b1 _ b2 _ hnz he => by
        by_cases h1 : b1 < 13
        · by_cases h2 : b2 < 13
          · rw [h13 b1 h1, h13 b2 h2] at he
            omega
          · rw [h13 b1 h1, h243 b2 (by omega)] at he
            omega
        · exact absurd (h243 b1 (by omega)) hnz)
      rfl rfl (by decide)
  · exact p6 (InternalNodeHeader.mk 0 4 (List.replicate 10 0))
      ([1, 2, 3, 4] ++ List.replicate 12 0)
      ([Node.Leaf (ArtNodeLeaf.mk 10 1 [1]), Node.Leaf (ArtNodeLeaf.mk 11 1 [2]),
        Node.Leaf (ArtNodeLeaf.mk 12 1 [3]), Node.Leaf (ArtNodeLeaf.mk 13 1 [4])]
        ++ List.replicate 12 (Node.Empty : Node Nat))
      [1] 1 0 1 0 (ArtNodeLeaf.mk 10 1 [1]) 0
      rfl rfl rfl rfl rfl (by decide) (by decide) (by decide) rfl rfl
